import Mathlib

/-!
Verification of the Stata `.dta` binary codec of this repository
(`pandas/io/stata.py`) against its natural-language specification.

The Python source is shallowly embedded: machine integers become `Nat`/`Int`
(with explicit `% 2^w` where the source wraps), IEEE-754 bit patterns become
`Nat` bit fields decoded to exact rationals, byte streams become `List Nat`,
and fallible code returns `Except`/`Option`.
-/

namespace Stata

/-! ## Byte-layout primitives

`struct.pack`/`struct.unpack` on little-endian streams: a `w`-byte
little-endian encoding of `n` and its decoding. -/

/-- Little-endian byte list of width `w` for the natural number `n`
(`struct.pack("<..", n)`); byte `i` is `n / 256^i % 256`. -/
def leBytes (n w : Nat) : List Nat :=
  (List.range w).map fun i => n / 256 ^ i % 256

/-- Value of a little-endian byte list (`struct.unpack("<..", bs)`). -/
def leVal (bs : List Nat) : Nat :=
  bs.foldr (fun b acc => b + 256 * acc) 0

theorem leVal_append (xs ys : List Nat) :
    leVal (xs ++ ys) = leVal xs + 256 ^ xs.length * leVal ys := by
  induction xs with
  | nil => simp [leVal]
  | cons x xs ih =>
    simp only [leVal, List.foldr_cons, List.cons_append, List.length_cons] at *
    rw [ih]; ring

theorem leBytes_length (n w : Nat) : (leBytes n w).length = w := by
  simp [leBytes]

theorem leVal_leBytes (n w : Nat) : leVal (leBytes n w) = n % 256 ^ w := by
  induction w generalizing n with
  | zero => simp [leBytes, leVal, Nat.mod_one]
  | succ w ih =>
    have hrange : List.range (w + 1) = 0 :: (List.range w).map (· + 1) :=
      List.range_succ_eq_map w
    have hmap :
        leBytes n (w + 1) = (n % 256) :: leBytes (n / 256) w := by
      simp only [leBytes, hrange, List.map_cons, List.map_map, pow_zero,
        Nat.div_one]
      refine congrArg (n % 256 :: ·) ?_
      refine List.map_congr_left fun i _ => ?_
      simp only [Function.comp_apply]
      rw [Nat.div_div_eq_div_mul, pow_succ']
    rw [hmap]
    have hcons : leVal (n % 256 :: leBytes (n / 256) w)
        = n % 256 + 256 * leVal (leBytes (n / 256) w) := rfl
    rw [hcons, ih, pow_succ', Nat.mod_mul]

theorem leBytes_take (n w k : Nat) (h : k ≤ w) :
    (leBytes n w).take k = leBytes n k := by
  simp only [leBytes, ← List.map_take, List.take_range, Nat.min_eq_left h]

/-! ## C1: missing-value sentinel table

`StataMissingValue.MISSING_VALUES` is built once at class scope: integer
bases 101 / 32741 / 2147483621 with offsets `0..26` labelled `"."`,
`".a"` .. `".z"`, and float32/float64 base bit patterns
(`0x7f000000`, `0x7fe0000000000000`) incremented 26 times by a fixed
stride (`0x800`, `2^40`).  Float patterns are modelled as IEEE-754 bit
fields decoded to exact rationals. -/

/-- Exact rational value of a finite IEEE-754 single bit pattern
(`struct.unpack("<f", struct.pack("<i", b))`).  All patterns involved in
the sentinel table and `VALID_RANGE` have exponent field `1..254`; the
`e = 255` (infinity/NaN) case never arises here. -/
def valF32 (b : Nat) : ℚ :=
  let s : ℚ := if b / 2 ^ 31 % 2 = 1 then -1 else 1
  let e : Nat := b / 2 ^ 23 % 2 ^ 8
  let m : Nat := b % 2 ^ 23
  if e = 0 then s * m / 2 ^ 149
  else s * (2 ^ e * (2 ^ 23 + m)) / 2 ^ 150

/-- Exact rational value of a finite IEEE-754 double bit pattern
(`struct.unpack("<d", struct.pack("<q", b))`). -/
def valF64 (b : Nat) : ℚ :=
  let s : ℚ := if b / 2 ^ 63 % 2 = 1 then -1 else 1
  let e : Nat := b / 2 ^ 52 % 2 ^ 11
  let m : Nat := b % 2 ^ 52
  if e = 0 then s * m / 2 ^ 1074
  else s * (2 ^ e * (2 ^ 52 + m)) / 2 ^ 1075

/-- Bit pattern of the `i`-th float32 sentinel: base
`0x7f000000 = struct.unpack("<i", b"\x00\x00\x00\x7f")` plus `i` times the
stride `0x800 = struct.unpack("<i", b"\x00\x08\x00\x00")`. -/
def f32SentBits (i : Nat) : Nat := 0x7f000000 + 0x800 * i

/-- Bit pattern of the `i`-th float64 sentinel: base
`0x7fe0000000000000` plus `i` times the stride
`2^40 = struct.unpack("q", b"\x00\x00\x00\x00\x00\x01\x00\x00")`. -/
def f64SentBits (i : Nat) : Nat := 0x7fe0000000000000 + 0x10000000000 * i

/-- The five numeric element kinds carrying missing-value sentinels. -/
inductive ElemKind | i8 | i16 | i32 | f32 | f64
deriving DecidableEq, Fintype

/-- The `i`-th sentinel pattern of a kind, as the numeric value used to key
`MISSING_VALUES` (the integer itself for integer kinds, the decoded float
value for float kinds). -/
def sentPattern (k : ElemKind) (i : Nat) : ℚ :=
  match k with
  | .i8 => 101 + i
  | .i16 => 32741 + i
  | .i32 => 2147483621 + i
  | .f32 => valF32 (f32SentBits i)
  | .f64 => valF64 (f64SentBits i)

/-- Label of the `i`-th sentinel: `"."` for `i = 0`, `"." + chr(96 + i)`
(i.e. `".a"` .. `".z"`) for `i = 1..26`. -/
def mvLabel (i : Nat) : String :=
  if i = 0 then "." else "." ++ String.singleton (Char.ofNat (96 + i))

/-- The kind's slice of `StataMissingValue.MISSING_VALUES`, in construction
order: 27 pattern-label pairs. -/
def missingValues (k : ElemKind) : List (ℚ × String) :=
  (List.range 27).map fun i => (sentPattern k i, mvLabel i)

/-- `label_of`: look a bit pattern's value up in the kind's table
(`StataMissingValue.__init__` / `.string`). -/
def labelOf (k : ElemKind) (q : ℚ) : Option String :=
  ((missingValues k).find? fun e => e.1 == q).map (·.2)

/-- `pattern_of`: reverse lookup of a label in the kind's table. -/
def patternOf (k : ElemKind) (s : String) : Option ℚ :=
  ((missingValues k).find? fun e => e.2 == s).map (·.1)

/-- `StataParser.VALID_RANGE`: the declared (min, max) of representable,
non-missing values per kind; the float endpoints are the decoded patterns
`0xfeffffff` / `0x7effffff` and `0xffefffffffffffff` / `0x7fdfffffffffffff`
from the source. -/
def validRange (k : ElemKind) : ℚ × ℚ :=
  match k with
  | .i8 => (-127, 100)
  | .i16 => (-32767, 32740)
  | .i32 => (-2147483647, 2147483620)
  | .f32 => (valF32 0xfeffffff, valF32 0x7effffff)
  | .f64 => (valF64 0xffefffffffffffff, valF64 0x7fdfffffffffffff)

/-! ## C2: StrL (GSO string pool) key packing

`StataStrLWriter` packs a `(variable_ordinal, observation_ordinal)` pair
into one integer with `self._o_offet = 2 ** (8 * (8 - o_size))`, where
`o_size` is 4 / 6 / 5 for versions 117 / 118 / 119; `StataReader._read_strls`
recomputes the same packed integer from the GSO record's separate `v` and
`o` fields by byte splicing (little-endian path). -/

/-- `o_size` from `StataStrLWriter.__init__` (117 → 4, 118 → 6, 119 → 5). -/
def oSize (version : Nat) : Nat :=
  if version = 117 then 4 else if version = 118 then 6 else 5

/-- `self._o_offet = 2 ** (8 * (8 - o_size))`. -/
def oOffset (version : Nat) : Nat := 2 ^ (8 * (8 - oSize version))

/-- `StataStrLWriter._convert_key`: `v + self._o_offet * o`. -/
def convertKey (version v o : Nat) : Nat := v + oOffset version * o

/-- The packing formula as the spec words it: `v + o * 2^(8*o_size)`. -/
def specPackKey (version v o : Nat) : Nat := v + o * 2 ^ (8 * oSize version)

/-- `StataReader._read_strls` on a little-endian file: the packed `v_o`
recomputed from a GSO record.  Version 117 reads the two `uint32` fields as
a single `uint64`; 118/119 read `v` (4 bytes) and `o` (8 bytes) and splice
`buf[0:v_size] + buf[4:(12 - v_size)]` with `v_size` 2 resp. 3 before
reading the result as a `uint64`. -/
def readStrlKey (version v o : Nat) : Nat :=
  if version = 117 then leVal (leBytes v 4 ++ leBytes o 4)
  else
    let buf := leBytes v 4 ++ leBytes o 8
    let vsize := if version = 118 then 2 else 3
    leVal (buf.take vsize ++ (buf.drop 4).take (8 - vsize))

/-- Record list of `StataStrLWriter.generate_blob`: one `(v, o, payload)`
record per table entry, skipping the reserved key
(`if vo == (0, 0): continue`). -/
def generateBlobRecords (table : List (String × Nat × Nat)) :
    List (Nat × Nat × String) :=
  table.filterMap fun e => if e.2 = (0, 0) then none else some (e.2.1, e.2.2, e.1)

/-- Splitting a packed key back into `(v, o)` with the version's offset —
the inverse relation the reader's string-pool dictionary relies on. -/
def unpackKey (version k : Nat) : Nat × Nat :=
  (k % oOffset version, k / oOffset version)

/-! ## C3: %tw weekly-date conversion

Read path (`_stata_elapsed_date_to_datetime_vec`, `%tw` branch):
`year = 1960 + dates // 52`, `days = (dates % 52) * 7`, then the calendar
date `datetime(year, 1, 1) + timedelta(days)`.  Write path
(`_datetime_to_stata_elapsed_vec`): `52 * (year - 1960) + day_of_year // 7`.
Python `//`/`%` on a positive divisor are floor division and non-negative
remainder, i.e. `Int.ediv`/`Int.emod`. -/

/-- Days in a (proleptic Gregorian) calendar year, as `datetime` counts
them. -/
def daysInYear (y : Int) : Int :=
  if (y % 4 = 0 ∧ y % 100 ≠ 0) ∨ y % 400 = 0 then 366 else 365

/-- `datetime.datetime(y, 1, 1) + timedelta(days = d)` for `d ≥ 0`,
expressed as (year, day-of-year): day counts roll over year boundaries. -/
def normYearDay (y : Int) (d : Nat) : Int × Nat :=
  if h : (d : Int) < daysInYear y then (y, d)
  else normYearDay (y + 1) (d - (daysInYear y).toNat)
termination_by d
decreasing_by
  have h365 : (365 : Int) ≤ daysInYear y := by
    unfold daysInYear; split <;> norm_num
  omega

/-- `%tw` read path: the calendar date decoded from the SIF week count
(`/` and `%` on `Int` are floor division and non-negative remainder for a
positive divisor, matching numpy's `//` and `%`). -/
def twToDate (n : Int) : Int × Nat :=
  normYearDay (1960 + n / 52) ((n % 52 * 7).toNat)

/-- `%tw` write path: the SIF week count encoded from a calendar date given
as (year, day-of-year). -/
def dateToTw (y : Int) (doy : Nat) : Int :=
  52 * (y - 1960) + (doy : Int) / 7

/-! ## C4 and C8: the record-stream read cursor

`StataReader.read` decodes the fixed-width record block into rows;
we model the block as the already-decoded row list and the reader's
`_lines_read` cursor. -/

/-- Reader-side state: decoded rows of the fixed input file and the
`_lines_read` cursor. -/
structure ReaderState (α : Type) where
  rows : List α
  cursor : Nat

/-- Result of one `StataReader.read` call: a data frame (row index plus row
values) or the `StopIteration` signal. -/
inductive ReadResult (α : Type)
  | frame (idx : List Nat) (out : List α)
  | stopIteration

/-- One call to `StataReader.read`.  `nrows? = none` is one-shot mode
(`nrows = self.nobs`); `some k` is iterator mode (`__next__` passes the
chunk size).  `sz` is the record byte width (`dtype.itemsize`).  Mirrors
the source: the empty-frame early return fires only for `nobs == 0` with
`nrows is None`; `read_len <= 0` raises `StopIteration`; otherwise
`read_lines = min(nrows, nobs - lines_read)` rows are consumed, the
chunk's row index continues from the cursor (`np.arange`), and the cursor
advances by the rows consumed. -/
def readCall {α : Type} (sz : Nat) (s : ReaderState α) (nrows? : Option Nat) :
    ReadResult α × ReaderState α :=
  let nobs := s.rows.length
  if nobs = 0 ∧ nrows? = none then (.frame [] [], s)
  else
    let nrows := nrows?.getD nobs
    let readLen := min (nrows * sz) ((nobs - s.cursor) * sz)
    if readLen = 0 then (.stopIteration, s)
    else
      let readLines := min nrows (nobs - s.cursor)
      (.frame (List.range' s.cursor readLines)
          ((s.rows.drop s.cursor).take readLines),
        ⟨s.rows, s.cursor + readLines⟩)

/-- Iterator-mode driver (`for chunk in itr`): call `readCall` with
`chunksize = k` until `StopIteration`.  `fuel` bounds the loop; any
`fuel > rows.length` is enough since every chunk consumes at least one
row. -/
def readChunks {α : Type} (sz k : Nat) (rows : List α) :
    Nat → Nat → List (List Nat × List α)
  | _, 0 => []
  | cursor, fuel + 1 =>
    match readCall sz ⟨rows, cursor⟩ (some k) with
    | (.stopIteration, _) => []
    | (.frame idx out, s') => (idx, out) :: readChunks sz k rows s'.cursor fuel

/-! ## C5: header parsing and version dispatch

`StataReader._read_header` peeks one byte; `"<"` dispatches to
`_read_new_header` (tagged layout, versions 117-119), anything else to
`_read_old_header` (legacy layout).  `_read_old_header` accepts
`[104, 105, 108, 111, 113, 114, 115]` and raises the unsupported-version
`ValueError` otherwise; `_get_time_stamp` raises a bare `ValueError()`
whenever `format_version <= 104`.  Streams are byte lists; a short read is
reported as `truncated` (the source would fail inside `struct.unpack`). -/

/-- Errors surfaced while parsing a header. -/
inductive HeaderError
  | unsupportedVersion (v : Int)
  | valueError
  | keyError
  | truncated
deriving DecidableEq

/-- A byte stream. -/
abbrev Stream := List Nat

/-- The preamble fields retained by the model. -/
structure Preamble where
  formatVersion : Int
  byteorderBE : Bool
  nvar : Nat
  nobs : Nat
deriving DecidableEq

/-- Read exactly `n` bytes from the stream. -/
def readBytes (n : Nat) (s : Stream) :
    Except HeaderError (List Nat × Stream) :=
  if s.length < n then .error .truncated else .ok (s.take n, s.drop n)

/-- Read `count` fields of `width` bytes each. -/
def readN (count width : Nat) (s : Stream) :
    Except HeaderError (List (List Nat) × Stream) :=
  match count with
  | 0 => .ok ([], s)
  | c + 1 => do
    let (x, s) ← readBytes width s
    let (xs, s) ← readN c width s
    .ok (x :: xs, s)

/-- Signed interpretation of one byte (`struct.unpack("b", ...)`). -/
def int8OfByte (b : Nat) : Int := if b < 128 then b else (b : Int) - 256

/-- Byte-order-sensitive unsigned field value. -/
def fieldVal (isBE : Bool) (bs : List Nat) : Nat :=
  if isBE then leVal bs.reverse else leVal bs

/-- `int(bytes)` over an ASCII digit string (the 3-digit release field);
non-digits raise `ValueError`. -/
def digitsVal (bs : List Nat) : Except HeaderError Int :=
  if bs.all fun b => 48 ≤ b && b ≤ 57 then
    .ok (bs.foldl (fun acc b => acc * 10 + ((b : Int) - 48)) 0)
  else .error .valueError

/-- `OLD_TYPE_MAPPING` plus the `tp - 127` fallback of
`_read_old_header` for versions ≤ 108. -/
def oldTypeMap (tp : Nat) : Int :=
  if tp = 98 then 251 else if tp = 105 then 252 else if tp = 108 then 253
  else if tp = 102 then 254 else if tp = 100 then 255 else (tp : Int) - 127

/-- Legacy type codes with a `DTYPE_MAP` entry (1..244 fixed strings,
251..255 numeric); any other code raises a `KeyError`. -/
def legacyCodeOk (t : Int) : Bool :=
  (1 ≤ t && t ≤ 244) || (251 ≤ t && t ≤ 255)

/-- Variable-name field width of the legacy layout (33 bytes after
format 108, 9 before). -/
def varnameWidth (version : Int) : Nat := if version > 108 then 33 else 9

/-- `_get_fmtlist` field width. -/
def fmtWidth (version : Int) : Nat :=
  if version ≥ 118 then 57 else if version > 113 then 49
  else if version > 104 then 12 else 7

/-- `_get_lbllist` field width. -/
def lblWidth (version : Int) : Nat :=
  if version ≥ 118 then 129 else if version > 108 then 33 else 9

/-- `_get_variable_labels` field width. -/
def vlblWidth (version : Int) : Nat :=
  if version ≥ 118 then 321 else if version > 105 then 81 else 32

/-- `_get_data_label` field width in the legacy layout. -/
def dataLabelWidth (version : Int) : Nat := if version > 105 then 81 else 32

/-- The expansion-field loop at the end of `_read_old_header`: read a
1-byte type and a length field (4 bytes after format 108, 2 before),
stop at type 0, otherwise skip the payload and continue.  `fuel` bounds
the loop; each iteration consumes at least one byte. -/
def skipExpansion (lenWidth : Nat) (isBE : Bool) :
    Stream → Nat → Except HeaderError Stream
  | _, 0 => .error .truncated
  | s, fuel + 1 => do
    let (t, s) ← readBytes 1 s
    let (l, s) ← readBytes lenWidth s
    if int8OfByte (t.headD 0) = 0 then .ok s
    else do
      let (_, s) ← readBytes (fieldVal isBE l) s
      skipExpansion lenWidth isBE s fuel

/-- `_read_old_header` after the version byte has been consumed and
decoded. -/
def parseOldHeader (version : Int) (s : Stream) :
    Except HeaderError Preamble := do
  if version ∈ ([104, 105, 108, 111, 113, 114, 115] : List Int) then
    let (bo, s) ← readBytes 1 s
    let isBE := bo.headD 0 = 1
    let (_ft, s) ← readBytes 1 s
    let (_, s) ← readBytes 1 s
    let (nv, s) ← readBytes 2 s
    let nvar := fieldVal isBE nv
    let (no, s) ← readBytes 4 s
    let nobs := fieldVal isBE no
    let (_lbl, s) ← readBytes (dataLabelWidth version) s
    let (_ts, s) ←
      if version > 104 then readBytes 18 s
      else (.error .valueError : Except HeaderError (List Nat × Stream))
    let (tl, s) ← readBytes nvar s
    let typlist : List Int :=
      if version > 108 then tl.map (Int.ofNat) else tl.map oldTypeMap
    if typlist.all legacyCodeOk then
      let (_vl, s) ← readN nvar (varnameWidth version) s
      let (_srt, s) ← readBytes (2 * (nvar + 1)) s
      let (_fmt, s) ← readN nvar (fmtWidth version) s
      let (_lb, s) ← readN nvar (lblWidth version) s
      let (_vlb, s) ← readN nvar (vlblWidth version) s
      let _rest ←
        if version > 104 then
          skipExpansion (if version > 108 then 4 else 2) isBE s (s.length + 1)
        else (.ok s : Except HeaderError Stream)
      .ok ⟨version, isBE, nvar, nobs⟩
    else .error .keyError
  else .error (.unsupportedVersion version)

/-- `_read_new_header` after the initial `"<"` has been consumed: the
sequential preamble through the section-offset table (the remaining
sections are reached by seeking to those offsets). -/
def parseNewHeader (s : Stream) : Except HeaderError Preamble := do
  let (_, s) ← readBytes 27 s
  let (vd, s) ← readBytes 3 s
  let version ← digitsVal vd
  if version ∈ ([117, 118, 119] : List Int) then
    let (_, s) ← readBytes 21 s
    let (bo, s) ← readBytes 3 s
    let isBE := bo = [77, 83, 70]
    let (_, s) ← readBytes 15 s
    let (nv, s) ← readBytes (if version ≤ 118 then 2 else 4) s
    let nvar := fieldVal isBE nv
    let (_, s) ← readBytes 7 s
    let (no, s) ← readBytes (if version ≥ 118 then 8 else 4) s
    let nobs := fieldVal isBE no
    let (_, s) ← readBytes 11 s
    let (ll, s) ← readBytes (if version ≥ 118 then 2 else 1) s
    let (_lbl, s) ← readBytes (fieldVal isBE ll) s
    let (_, s) ← readBytes 19 s
    let (tsl, s) ← readBytes 1 s
    let (_ts, s) ← readBytes (leVal tsl) s
    let (_, s) ← readBytes 26 s
    let (_, s) ← readBytes 8 s
    let (_, s) ← readBytes 8 s
    let (_, s) ← readBytes 8 s
    let (_, s) ← readBytes 8 s
    let (_, s) ← readBytes 8 s
    let (_, s) ← readBytes 8 s
    let (_, s) ← readBytes 8 s
    let (_, s) ← readBytes 8 s
    let (_, s) ← readBytes 8 s
    let (_, s) ← readBytes 8 s
    let (_, s) ← readBytes 8 s
    let (_, _s) ← readBytes 8 s
    .ok ⟨version, isBE, nvar, nobs⟩
  else .error (.unsupportedVersion version)

/-- `_read_header`: dispatch on the first byte. -/
def readHeader (s : Stream) : Except HeaderError Preamble :=
  match s with
  | [] => .error .truncated
  | b :: rest =>
    if b = 60 then parseNewHeader rest
    else parseOldHeader (int8OfByte b) rest

/-- A well-formed legacy-layout file with `nvar` double columns, all-blank
labels and formats, and an immediate expansion-field terminator.  The
version byte is the signed-byte encoding of `version`. -/
def mkOldFile (version : Int) (nvar nobs : Nat) : Stream :=
  (version % 256).toNat
    :: ([2]
      ++ ([1]
        ++ ([0]
          ++ (leBytes nvar 2
            ++ (leBytes nobs 4
              ++ (List.replicate (dataLabelWidth version) 0
                ++ ((if version > 104 then List.replicate 18 0 else [])
                  ++ ((if version > 108 then List.replicate nvar 255
                      else List.replicate nvar 100)
                    ++ ((List.replicate nvar
                          (List.replicate (varnameWidth version) 0)).flatten
                      ++ (List.replicate (2 * (nvar + 1)) 0
                        ++ ((List.replicate nvar
                              (List.replicate (fmtWidth version) 0)).flatten
                          ++ ((List.replicate nvar
                                (List.replicate (lblWidth version) 0)).flatten
                            ++ ((List.replicate nvar
                                  (List.replicate (vlblWidth version) 0)).flatten
                              ++ (if version > 104 then
                                    List.replicate
                                      (1 + (if version > 108 then 4 else 2)) 0
                                  else []))))))))))))))

/-- The three ASCII digits of a release number below 1000. -/
def releaseDigits (version : Nat) : List Nat :=
  [48 + version / 100 % 10, 48 + version / 10 % 10, 48 + version % 10]

/-- A well-formed tagged-layout file preamble (little-endian, empty data
label and timestamp, zeroed paddings and offsets). -/
def mkNewFile (version : Nat) (nvar nobs : Nat) : Stream :=
  60 :: (List.replicate 27 0
    ++ (releaseDigits version
      ++ (List.replicate 21 0
        ++ ([76, 83, 70]
          ++ (List.replicate 15 0
            ++ (leBytes nvar (if version ≤ 118 then 2 else 4)
              ++ (List.replicate 7 0
                ++ (leBytes nobs (if version ≥ 118 then 8 else 4)
                  ++ (List.replicate 11 0
                    ++ (List.replicate (if version ≥ 118 then 2 else 1) 0
                      ++ (List.replicate 19 0
                        ++ ([0]
                          ++ (List.replicate 26 0
                            ++ (List.replicate 8 0
                              ++ (List.replicate 8 0
                                ++ (List.replicate 8 0
                                  ++ (List.replicate 8 0
                                    ++ (List.replicate 8 0
                                      ++ (List.replicate 8 0
                                        ++ (List.replicate 8 0
                                          ++ (List.replicate 8 0
                                            ++ (List.replicate 8 0
                                              ++ (List.replicate 8 0
                                                ++ (List.replicate 8 0
                                                  ++ (List.replicate 8 0
                                                    ++ ([] : Stream))))))))))))))))))))))))))

/-! ## C6: column-name validation

`StataWriter._validate_variable_name` iterates over the characters of the
original name and replaces every occurrence of each character outside
`A-Z a-z 0-9 _` with `"_"` (`str.replace` replaces all occurrences);
`_check_column_names` then prefixes `"_"` for reserved words and names
starting with a digit, truncates to 32 characters, and de-duplicates only
the names it rewrote, using the evolving column list and an incrementing
counter.  `name[0]` on an empty name raises `IndexError`, modelled as
`none`; the unbounded `while` loop is modelled with fuel (also `none` on
exhaustion). -/

/-- A character Stata accepts in a variable name (the negation of the
replacement condition in `_validate_variable_name`). -/
def okChar (c : Char) : Bool :=
  (('A' ≤ c && c ≤ 'Z') || ('a' ≤ c && c ≤ 'z') || ('0' ≤ c && c ≤ '9')
    || c = '_')

/-- `_validate_variable_name`: fold over the original characters, replacing
all occurrences of each invalid character with `'_'`. -/
def validateVariableName (name : String) : String :=
  ⟨name.data.foldl
    (fun cur c =>
      if okChar c then cur else cur.map fun x => if x = c then '_' else x)
    name.data⟩

/-- `StataParser.RESERVED_WORDS`. -/
def reservedWords : List String :=
  ["aggregate", "array", "boolean", "break", "byte", "case", "catch",
    "class", "colvector", "complex", "const", "continue", "default",
    "delegate", "delete", "do", "double", "else", "eltypedef", "end",
    "enum", "explicit", "export", "external", "float", "for", "friend",
    "function", "global", "goto", "if", "inline", "int", "local", "long",
    "NULL", "pragma", "protected", "quad", "rowvector", "short", "typedef",
    "typename", "virtual", "_all", "_N", "_skip", "_b", "_pi", "str#",
    "in", "_pred", "strL", "_coef", "_rc", "using", "_cons", "_se", "with",
    "_n"]

/-- `name[:min(len(name), 32)]`. -/
def strTake (s : String) (n : Nat) : String := ⟨s.data.take n⟩

/-- `name[0]` (callers guarantee non-emptiness). -/
def strHead (s : String) : Char := s.data.headD ' '

/-- The per-name part of `_check_column_names`: validate characters,
prefix `"_"` for reserved words, prefix `"_"` for names starting with a
digit (`name[0]` raises `IndexError` on the empty string: `none`), then
truncate to 32 characters. -/
def fixName (name : String) : Option String :=
  let v := validateVariableName name
  let r := if v ∈ reservedWords then "_" ++ v else v
  if r.data.isEmpty then none
  else
    let d := if '0' ≤ strHead r ∧ strHead r ≤ '9' then "_" ++ r else r
    some (strTake d 32)

/-- The `while columns.count(name) > 0` de-duplication loop: prepend
`"_" + str(duplicate_var_id)` and re-truncate until the name no longer
occurs in the (fixed) column list; `fuel` bounds the unbounded source
loop. -/
def dedupLoop (columns : List String) : Nat → String → Nat →
    Option (String × Nat)
  | fuel, name, dupId =>
    if columns.count name = 0 then some (name, dupId)
    else
      match fuel with
      | 0 => none
      | f + 1 =>
        dedupLoop columns f (strTake ("_" ++ toString dupId ++ name) 32)
          (dupId + 1)

/-- The position loop of `_check_column_names` over the evolving column
list. -/
def checkLoop (fuel : Nat) : List String → Nat → Nat → Option (List String)
  | columns, j, dupId =>
    if h : j < columns.length then
      let orig := columns.get ⟨j, h⟩
      match fixName orig with
      | none => none
      | some name =>
        if name = orig then checkLoop fuel columns (j + 1) dupId
        else
          match dedupLoop columns fuel name dupId with
          | none => none
          | some (name2, dupId2) =>
            checkLoop fuel (columns.set j name2) (j + 1) dupId2
    else some columns
termination_by columns j _ => columns.length - j
decreasing_by
  all_goals simp_wf
  all_goals omega

/-- `_check_column_names` on the list of column names. -/
def checkColumnNames (fuel : Nat) (cols : List String) :
    Option (List String) :=
  checkLoop fuel cols 0 0

/-! ## C9: padding primitive

`_pad_bytes(name, length)` returns `name + b"\x00" * (length - len(name))`;
in Python a negative repeat count yields the empty byte string, so an
overlong input is returned unchanged and no exception is raised.
`_pad_bytes_new` computes the same bytes after utf-8 encoding. -/

/-- `_pad_bytes` from the source: right-pad with zero bytes to `length`;
`b"\x00" * k` is empty for `length < len(name)` (Nat subtraction). -/
def padBytes (name : List Nat) (length : Nat) : List Nat :=
  name ++ List.replicate (length - name.length) 0

/-- `_pad_bytes_new` from the source: identical arithmetic (the input is
utf-8 encoded first; we model the already-encoded byte list). -/
def padBytesNew (name : List Nat) (length : Nat) : List Nat :=
  name ++ List.replicate (length - name.length) 0

/-! ## C10: the legacy writer's header

`StataWriter._write_header` emits `struct.pack("b", 114)` as the very first
byte, unconditionally; no constructor argument of `StataWriter` can change
it.  The class constants are `_max_string_length = 244` and
`_encoding = "latin-1"`. -/

/-- Byte-order-sensitive integer packing: little-endian bytes, reversed for
big-endian (`struct.pack(byteorder + ..., n)`). -/
def packInt (isBE : Bool) (w n : Nat) : List Nat :=
  if isBE then (leBytes n w).reverse else leBytes n w

/-- Null termination (`_null_terminate_bytes`): append one zero byte. -/
def nullTerminate (bs : List Nat) : List Nat := bs ++ [0]

/-- `StataWriter._max_string_length` (class constant). -/
def maxStringLength114 : Nat := 244

/-- `StataWriter._encoding` (class constant). -/
def encoding114 : String := "latin-1"

/-- `StataWriter._write_header`: format byte 114, byte-order flag, filetype,
one unused byte, 2-byte variable count, 4-byte observation count, 81-byte
null-terminated data label, null-terminated timestamp.  `dataLabel` is the
already-encoded label (`none` for the default empty label), `ts` the
already-formatted timestamp bytes. -/
def writeHeader114 (isBE : Bool) (nvar nobs : Nat)
    (dataLabel : Option (List Nat)) (ts : List Nat) : List Nat :=
  [114]
    ++ [if isBE then 1 else 2]
    ++ [1]
    ++ [0]
    ++ packInt isBE 2 nvar
    ++ packInt isBE 4 nobs
    ++ (match dataLabel with
        | none => nullTerminate (padBytes [] 80)
        | some lbl => nullTerminate (padBytes (lbl.take 80) 80))
    ++ nullTerminate ts

/-! ## C7: numeric range policy of `_cast_to_stata_types`

The writer checks each numeric column's `max()` / `min()` against the
Stata-representable range of its dtype and upcasts, downcasts or raises;
`float32_max` and `float64_max` are the decoded bit patterns `0x7effffff`
and `0x7fdfffffffffffff` from the source.  `_cast_to_stata_types` runs in
`StataWriter.__init__` via `_prepare_pandas`, while bytes are emitted
only later by `write_file`, so a raise precedes any output byte. -/

/-- The numeric dtypes `_cast_to_stata_types` handles. -/
inductive NumDtype
  | bool | uint8 | uint16 | uint32
  | int8 | int16 | int32 | int64 | float32 | float64
deriving DecidableEq

/-- One column entry: a finite value (as an exact rational) or an
infinity (`np.inf` / `-np.inf`). -/
inductive FVal
  | fin (q : ℚ)
  | pinf
  | minf
deriving DecidableEq

/-- `a ≤ b` on extended column entries. -/
def fleB : FVal → FVal → Bool
  | .minf, _ => true
  | _, .pinf => true
  | .fin a, .fin b => decide (a ≤ b)
  | _, _ => false

/-- `a < b` on extended column entries. -/
def fltB (a b : FVal) : Bool := !fleB b a

/-- `data[col].max()`: fold of the pairwise maximum. -/
def listMax (l : List FVal) : FVal :=
  l.foldl (fun a b => if fleB a b then b else a) .minf

/-- `data[col].min()`: fold of the pairwise minimum. -/
def listMin (l : List FVal) : FVal :=
  l.foldl (fun a b => if fleB b a then b else a) .pinf

/-- `float32_max = struct.unpack("<f", b"\xff\xff\xff\x7e")[0]`. -/
def f32max : ℚ := valF32 0x7effffff

/-- `float64_max = struct.unpack("<d", b"\xff\xff\xff\xff\xff\xff\xdf\x7f")[0]`. -/
def f64max : ℚ := valF64 0x7fdfffffffffffff

/-- The dtype-transition / raise behaviour of the `_cast_to_stata_types`
loop body on one column: the unsupported-type conversion table
(`bool`/`uint` rows), the int8 and int16 upcast checks, the int64
downcast-or-sidecast, and the float checks (`np.isinf` on the column
maximum, then the `float32_max` / `float64_max` comparisons); `error`
is the `ValueError` raise. -/
def castColumn (dtype : NumDtype) (vals : List FVal) :
    Except String NumDtype :=
  let mx := listMax vals
  let mn := listMin vals
  let dtype1 : NumDtype :=
    match dtype with
    | .bool => .int8
    | .uint8 => if fleB mx (.fin 127) then .int8 else .int16
    | .uint16 => if fleB mx (.fin 32767) then .int16 else .int32
    | .uint32 => if fleB mx (.fin 2147483647) then .int32 else .int64
    | d => d
  match dtype1 with
  | .int8 =>
    if fltB (.fin 100) mx || fltB mn (.fin (-127)) then .ok .int16
    else .ok .int8
  | .int16 =>
    if fltB (.fin 32740) mx || fltB mn (.fin (-32767)) then .ok .int32
    else .ok .int16
  | .int64 =>
    if fleB mx (.fin 2147483620) && fleB (.fin (-2147483647)) mn then
      .ok .int32
    else .ok .float64
  | .float32 =>
    if mx = .pinf ∨ mx = .minf then
      .error "has a maximum value of infinity which is outside the range supported by Stata"
    else if fltB (.fin f32max) mx then .ok .float64
    else .ok .float32
  | .float64 =>
    if mx = .pinf ∨ mx = .minf then
      .error "has a maximum value of infinity which is outside the range supported by Stata"
    else if fltB (.fin f64max) mx then
      .error "has a maximum value outside the range supported by Stata"
    else .ok .float64
  | d => .ok d

/-- `_cast_to_stata_types` over the whole frame: the columns in order,
the first raise aborting the pass. -/
def castTable : List (NumDtype × List FVal) → Except String (List NumDtype)
  | [] => .ok []
  | (d, vs) :: rest =>
    match castColumn d vs with
    | .error e => .error e
    | .ok d1 =>
      match castTable rest with
      | .error e => .error e
      | .ok ds => .ok (d1 :: ds)

/-- The write pipeline shape: `StataWriter.__init__` runs
`_prepare_pandas` (hence `_cast_to_stata_types`) and only a later
`write_file` call emits bytes, so a cast error yields no output bytes. -/
def writePipeline (cols : List (NumDtype × List FVal))
    (emit : List NumDtype → List Nat) : Except String (List Nat) :=
  match castTable cols with
  | .error e => .error e
  | .ok ds => .ok (emit ds)

end Stata

/-- Helper for C2: value of a spliced pair of little-endian fields. -/
theorem leVal_two_fields (v o a b : Nat) :
    Stata.leVal (Stata.leBytes v a ++ Stata.leBytes o b)
      = v % 2 ^ (8 * a) + 2 ^ (8 * a) * (o % 2 ^ (8 * b)) := by
  rw [Stata.leVal_append, Stata.leVal_leBytes, Stata.leVal_leBytes,
    Stata.leBytes_length, show (256 : Nat) = 2 ^ 8 from rfl, ← pow_mul,
    ← pow_mul]

/-- C2 counterexample: the spec's packing formula `v + o * 2^(8*o_size)`
does not match the writer.  At version 118 with `(v, o) = (0, 1)` the
writer's `_convert_key` yields `2^16 = 65536` while the spec's formula
yields `2^48`. -/
theorem strl_key_packing_counterexample :
    Stata.convertKey 118 0 1 = 65536 ∧
      Stata.specPackKey 118 0 1 = 281474976710656 ∧
      Stata.convertKey 118 0 1 ≠ Stata.specPackKey 118 0 1 := by
  refine ⟨rfl, rfl, ?_⟩
  decide

/-- C2 (amended): the writer packs `(v, o)` as `v + o * 2^(8*(8 - o_size))`
(o_size = 4/6/5 for 117/118/119, so the multiplier is `2^32`/`2^16`/`2^24`);
within the version bounds `v < 2^(8*(8-o_size))`, `o < 2^(8*o_size)` the
reader's little-endian splicing recomputes exactly this packed key, the key
splits back into `(v, o)`, and the reserved key `(0, 0)` is never emitted
in a generated blob. -/
theorem strl_key_roundtrip (version v o : Nat)
    (hver : version = 117 ∨ version = 118 ∨ version = 119)
    (hv : v < 2 ^ (8 * (8 - Stata.oSize version)))
    (ho : o < 2 ^ (8 * Stata.oSize version)) :
    Stata.readStrlKey version v o = Stata.convertKey version v o ∧
      Stata.unpackKey version (Stata.convertKey version v o) = (v, o) ∧
      ∀ (table : List (String × Nat × Nat)) (rec : Nat × Nat × String),
        rec ∈ Stata.generateBlobRecords table → (rec.1, rec.2.1) ≠ (0, 0) := by
  have hblob : ∀ (table : List (String × Nat × Nat)) (rec : Nat × Nat × String),
      rec ∈ Stata.generateBlobRecords table → (rec.1, rec.2.1) ≠ (0, 0) := by
    intro table rec hrec
    obtain ⟨e, _, he⟩ := List.mem_filterMap.mp hrec
    by_cases h0 : e.2 = (0, 0)
    · simp [h0] at he
    · simp only [h0, if_false] at he
      rw [← Option.some.inj he]
      simpa using h0
  have hsplit : ∀ a : Nat, 0 < a → a ≤ 4 →
      Stata.leVal ((Stata.leBytes v 4 ++ Stata.leBytes o 8).take a
          ++ ((Stata.leBytes v 4 ++ Stata.leBytes o 8).drop 4).take (8 - a))
        = v % 2 ^ (8 * a) + 2 ^ (8 * a) * (o % 2 ^ (8 * (8 - a))) := by
    intro a ha ha4
    rw [List.take_append_of_le_length (by rw [Stata.leBytes_length]; omega),
      Stata.leBytes_take v 4 a ha4,
      List.drop_left' (Stata.leBytes_length v 4),
      Stata.leBytes_take o 8 (8 - a) (by omega), leVal_two_fields]
  rcases hver with rfl | rfl | rfl
  · simp only [Stata.oSize] at hv ho
    norm_num at hv ho
    refine ⟨?_, ?_, hblob⟩
    · rw [show Stata.readStrlKey 117 v o
          = Stata.leVal (Stata.leBytes v 4 ++ Stata.leBytes o 4) from rfl,
        leVal_two_fields,
        show Stata.convertKey 117 v o = v + 2 ^ 32 * o from rfl]
      norm_num
      omega
    · rw [show Stata.convertKey 117 v o = v + 2 ^ 32 * o from rfl]
      simp only [Stata.unpackKey, Stata.oOffset, Stata.oSize]
      rw [Prod.mk.injEq]
      norm_num
      omega
  · simp only [Stata.oSize] at hv ho
    norm_num at hv ho
    refine ⟨?_, ?_, hblob⟩
    · rw [show Stata.readStrlKey 118 v o
          = Stata.leVal ((Stata.leBytes v 4 ++ Stata.leBytes o 8).take 2
              ++ ((Stata.leBytes v 4 ++ Stata.leBytes o 8).drop 4).take 6)
            from rfl,
        show (6 : Nat) = 8 - 2 from rfl, hsplit 2 (by norm_num) (by norm_num),
        show Stata.convertKey 118 v o = v + 2 ^ 16 * o from rfl]
      norm_num
      omega
    · rw [show Stata.convertKey 118 v o = v + 2 ^ 16 * o from rfl]
      simp only [Stata.unpackKey, Stata.oOffset, Stata.oSize]
      rw [Prod.mk.injEq]
      norm_num
      omega
  · simp only [Stata.oSize] at hv ho
    norm_num at hv ho
    refine ⟨?_, ?_, hblob⟩
    · rw [show Stata.readStrlKey 119 v o
          = Stata.leVal ((Stata.leBytes v 4 ++ Stata.leBytes o 8).take 3
              ++ ((Stata.leBytes v 4 ++ Stata.leBytes o 8).drop 4).take 5)
            from rfl,
        show (5 : Nat) = 8 - 3 from rfl, hsplit 3 (by norm_num) (by norm_num),
        show Stata.convertKey 119 v o = v + 2 ^ 24 * o from rfl]
      norm_num
      omega
    · rw [show Stata.convertKey 119 v o = v + 2 ^ 24 * o from rfl]
      simp only [Stata.unpackKey, Stata.oOffset, Stata.oSize]
      rw [Prod.mk.injEq]
      norm_num
      omega

/-- C2 witness: the amended round trip at version 118 with `(v, o) = (5, 7)`. -/
theorem strl_key_roundtrip_witness :
    Stata.readStrlKey 118 5 7 = Stata.convertKey 118 5 7 ∧
      Stata.unpackKey 118 (Stata.convertKey 118 5 7) = (5, 7) :=
  ⟨(strl_key_roundtrip 118 5 7 (by norm_num) (by norm_num [Stata.oSize])
      (by norm_num [Stata.oSize])).1,
    (strl_key_roundtrip 118 5 7 (by norm_num) (by norm_num [Stata.oSize])
      (by norm_num [Stata.oSize])).2.1⟩

/-- C9: the claim states `pad` raises an error when the input is longer than
the requested length.  Counterexample: `_pad_bytes(b"abc", 2)` returns the
3-byte input `b"abc"` unchanged — there is no error path in the function. -/
theorem pad_bytes_overlong_counterexample :
    Stata.padBytes [97, 98, 99] 2 = [97, 98, 99] ∧
      ([97, 98, 99] : List Nat).length > 2 := by
  constructor
  · rfl
  · decide

/-- C9 (amended): for input of length at most the requested length, `pad`
returns the input right-padded with zero bytes to exactly that length; for
longer input it raises nothing and returns the input unchanged (truncation
is the caller's responsibility).  `_pad_bytes_new` computes the same
bytes. -/
theorem pad_bytes_contract (name : List Nat) (length : Nat) :
    (name.length ≤ length →
      Stata.padBytes name length
        = name ++ List.replicate (length - name.length) 0 ∧
      (Stata.padBytes name length).length = length) ∧
    (length < name.length → Stata.padBytes name length = name) ∧
    Stata.padBytesNew name length = Stata.padBytes name length := by
  refine ⟨fun h => ⟨rfl, ?_⟩, fun h => ?_, rfl⟩
  · simp [Stata.padBytes]; omega
  · have : length - name.length = 0 := by omega
    simp [Stata.padBytes, this]

/-- C9 witness: the amended contract evaluated at a concrete short input and
a concrete overlong input. -/
theorem pad_bytes_contract_witness :
    Stata.padBytes [97] 3 = [97, 0, 0] ∧ Stata.padBytes [97, 98, 99] 2 = [97, 98, 99] := by
  constructor
  · have h := (pad_bytes_contract [97] 3).1 (by decide)
    rw [h.1]; rfl
  · exact (pad_bytes_contract [97, 98, 99] 2).2.1 (by decide)

namespace Stata

/-- Closed form of the float32 sentinel values: sign 0, exponent field 254,
mantissa `0x800 * i`. -/
theorem sentPattern_f32_eq (i : Nat) (hi : i < 27) :
    sentPattern .f32 i = (2 ^ (254 : Nat) * (2 ^ 23 + (2 ^ 11 * i : Nat)) : ℚ) / 2 ^ 150 := by
  have h1 : (0x7f000000 + 0x800 * i) / 2 ^ 31 % 2 = 0 := by omega
  have h2 : (0x7f000000 + 0x800 * i) / 2 ^ 23 % 2 ^ 8 = 254 := by omega
  have h3 : (0x7f000000 + 0x800 * i) % 2 ^ 23 = 2 ^ 11 * i := by omega
  simp only [sentPattern, valF32, f32SentBits, h1, h2, h3]
  norm_num

/-- Closed form of the float64 sentinel values: sign 0, exponent field 2046,
mantissa `2^40 * i`. -/
theorem sentPattern_f64_eq (i : Nat) (hi : i < 27) :
    sentPattern .f64 i
      = (2 ^ (2046 : Nat) * (2 ^ 52 + (2 ^ 40 * i : Nat)) : ℚ) / 2 ^ 1075 := by
  have h1 : (0x7fe0000000000000 + 0x10000000000 * i) / 2 ^ 63 % 2 = 0 := by omega
  have h2 : (0x7fe0000000000000 + 0x10000000000 * i) / 2 ^ 52 % 2 ^ 11 = 2046 := by
    omega
  have h3 : (0x7fe0000000000000 + 0x10000000000 * i) % 2 ^ 52 = 2 ^ 40 * i := by omega
  simp only [sentPattern, valF64, f64SentBits, h1, h2, h3]
  norm_num

/-- Same-denominator division comparison over ℚ. -/
theorem div_lt_div_same {a b c : ℚ} (h : a < b) (hc : 0 < c) :
    a / c < b / c := by
  have := mul_lt_mul_of_pos_right h (inv_pos.mpr hc)
  simpa [div_eq_mul_inv] using this

/-- Sentinel patterns are strictly increasing in the index, per kind. -/
theorem sentPattern_strictMono (k : ElemKind) {i j : Nat} (hij : i < j)
    (hj : j < 27) : sentPattern k i < sentPattern k j := by
  have hi : i < 27 := lt_trans hij hj
  have hcast : (i : ℚ) < (j : ℚ) := by exact_mod_cast hij
  cases k with
  | i8 => simp only [sentPattern]; linarith
  | i16 => simp only [sentPattern]; linarith
  | i32 => simp only [sentPattern]; linarith
  | f32 =>
    rw [sentPattern_f32_eq i hi, sentPattern_f32_eq j hj]
    refine div_lt_div_same ?_ (by positivity)
    have hA : (0 : ℚ) < 2 ^ (254 : Nat) := by positivity
    push_cast
    nlinarith [hA]
  | f64 =>
    rw [sentPattern_f64_eq i hi, sentPattern_f64_eq j hj]
    refine div_lt_div_same ?_ (by positivity)
    have hA : (0 : ℚ) < 2 ^ (2046 : Nat) := by positivity
    push_cast
    nlinarith [hA]

/-- Helper for C1: every sentinel pattern lies strictly above the kind's
declared maximum. -/
theorem sentPattern_gt_validMax (k : ElemKind) (i : Nat) (hi : i < 27) :
    (validRange k).2 < sentPattern k i := by
  have hnn : (0 : ℚ) ≤ i := Nat.cast_nonneg i
  cases k with
  | i8 => simp only [sentPattern, validRange]; linarith
  | i16 => simp only [sentPattern, validRange]; linarith
  | i32 => simp only [sentPattern, validRange]; linarith
  | f32 =>
    rw [sentPattern_f32_eq i hi]
    have h1 : (0x7effffff : Nat) / 2 ^ 31 % 2 = 0 := by omega
    have h2 : (0x7effffff : Nat) / 2 ^ 23 % 2 ^ 8 = 253 := by omega
    have h3 : (0x7effffff : Nat) % 2 ^ 23 = 8388607 := by omega
    have hmax : (validRange ElemKind.f32).2
        = ((2 ^ (253 : Nat) * (2 ^ 23 + (8388607 : Nat)) : ℚ)) / 2 ^ 150 := by
      simp only [validRange, valF32, h1, h2, h3]
      norm_num
    rw [hmax]
    refine div_lt_div_same ?_ (by positivity)
    have hA : (0 : ℚ) < 2 ^ (253 : Nat) := by positivity
    have hpow : (2 : ℚ) ^ (254 : Nat) = 2 * 2 ^ (253 : Nat) := by
      rw [show (254 : Nat) = 253 + 1 from rfl, pow_succ]; ring
    push_cast
    rw [hpow]
    nlinarith [hA]
  | f64 =>
    rw [sentPattern_f64_eq i hi]
    have h1 : (0x7fdfffffffffffff : Nat) / 2 ^ 63 % 2 = 0 := by omega
    have h2 : (0x7fdfffffffffffff : Nat) / 2 ^ 52 % 2 ^ 11 = 2045 := by omega
    have h3 : (0x7fdfffffffffffff : Nat) % 2 ^ 52 = 4503599627370495 := by omega
    have hmax : (validRange ElemKind.f64).2
        = ((2 ^ (2045 : Nat) * (2 ^ 52 + (4503599627370495 : Nat)) : ℚ)) / 2 ^ 1075 := by
      simp only [validRange, valF64, h1, h2, h3]
      norm_num
    rw [hmax]
    refine div_lt_div_same ?_ (by positivity)
    have hA : (0 : ℚ) < 2 ^ (2045 : Nat) := by positivity
    have hpow : (2 : ℚ) ^ (2046 : Nat) = 2 * 2 ^ (2045 : Nat) := by
      rw [show (2046 : Nat) = 2045 + 1 from rfl, pow_succ]; ring
    push_cast
    rw [hpow]
    nlinarith [hA]

/-- Generic first-match lemma: `find?` over `(List.range n).map g` returns
`g i` when the predicate fails below `i` and holds at `i < n`. -/
theorem find?_map_range {α : Type} (g : Nat → α) (p : α → Bool) (n i : Nat)
    (hi : i < n) (hbelow : ∀ j, j < i → p (g j) = false) (hp : p (g i) = true) :
    ((List.range n).map g).find? p = some (g i) := by
  have hsplit : List.range n = List.range i ++ (List.range (n - i)).map (i + ·) := by
    rw [← List.range_add]
    congr 1
    omega
  rw [hsplit, List.map_append, List.find?_append]
  have hnone : ((List.range i).map g).find? p = none := by
    rw [List.find?_eq_none]
    intro x hx
    obtain ⟨j, hj, rfl⟩ := List.mem_map.mp hx
    simp only [List.mem_range] at hj
    simp [hbelow j hj]
  rw [hnone]
  obtain ⟨m, hm⟩ : ∃ m, n - i = m + 1 := ⟨n - i - 1, by omega⟩
  rw [hm, List.range_succ_eq_map]
  simp only [List.map_cons, List.find?_cons, Nat.add_zero, hp]
  rfl

/-- The 27 sentinel labels are pairwise distinct. -/
theorem mvLabel_injOn : ∀ i j : Fin 27, mvLabel i = mvLabel j → i = j := by
  decide

/-- Helper for C1: the table lookups round-trip on every sentinel. -/
theorem missingValues_lookup (k : ElemKind) (i : Nat) (hi : i < 27) :
    labelOf k (sentPattern k i) = some (mvLabel i) ∧
      patternOf k (mvLabel i) = some (sentPattern k i) := by
  constructor
  · unfold labelOf missingValues
    rw [find?_map_range (fun j => (sentPattern k j, mvLabel j))
      (fun e => e.1 == sentPattern k i) 27 i hi
      (fun j hj => by
        simp only [beq_eq_false_iff_ne, ne_eq]
        exact ne_of_lt (sentPattern_strictMono k hj hi))
      (by simp)]
    rfl
  · unfold patternOf missingValues
    rw [find?_map_range (fun j => (sentPattern k j, mvLabel j))
      (fun e => e.2 == mvLabel i) 27 i hi
      (fun j hj => by
        simp only [beq_eq_false_iff_ne, ne_eq]
        intro heq
        have := mvLabel_injOn ⟨j, lt_trans hj hi⟩ ⟨i, hi⟩ heq
        simp only [Fin.mk.injEq] at this
        omega)
      (by simp)]
    rfl

end Stata

/-- C1: for every element kind the missing-value table holds exactly 27
sentinel patterns labelled `"."`, `".a"` .. `".z"`; the label-pattern
mapping is a bijection on those patterns (`pattern_of (label_of p) = p` and
`label_of (pattern_of l) = l`), and no value inside the kind's declared
`VALID_RANGE` equals any sentinel pattern of that kind. -/
theorem missing_value_table_spec (k : Stata.ElemKind) :
    (Stata.missingValues k).length = 27 ∧
      (∀ i : Nat, i < 27 →
        Stata.labelOf k (Stata.sentPattern k i) = some (Stata.mvLabel i) ∧
          Stata.patternOf k (Stata.mvLabel i) = some (Stata.sentPattern k i)) ∧
      (∀ q : ℚ, (Stata.validRange k).1 ≤ q → q ≤ (Stata.validRange k).2 →
        ∀ i : Nat, i < 27 → q ≠ Stata.sentPattern k i) := by
  refine ⟨by simp [Stata.missingValues], Stata.missingValues_lookup k, ?_⟩
  intro q _ hhi i hi hq
  exact absurd (hq ▸ hhi) (not_le.mpr (Stata.sentPattern_gt_validMax k i hi))

/-- C1 witness: the bijection and range-disjointness at kind `int8`,
sentinel index 3 (pattern 104, label `".c"`), data value 50. -/
theorem missing_value_table_spec_witness :
    (Stata.labelOf .i8 (Stata.sentPattern .i8 3) = some (Stata.mvLabel 3) ∧
        Stata.patternOf .i8 (Stata.mvLabel 3) = some (Stata.sentPattern .i8 3)) ∧
      (50 : ℚ) ≠ Stata.sentPattern .i8 3 := by
  refine ⟨(missing_value_table_spec Stata.ElemKind.i8).2.1 3 (by norm_num), ?_⟩
  refine (missing_value_table_spec Stata.ElemKind.i8).2.2 50 ?_ ?_ 3 (by norm_num)
  · show (-127 : ℚ) ≤ 50
    norm_num
  · show (50 : ℚ) ≤ 100
    norm_num

/-- C10: the base (legacy) writer always declares format version 114: the
first byte emitted by `_write_header` is the constant 114 for every
combination of construction parameters (byte order, variable and observation
counts, data label, timestamp), the active text encoding is latin-1, and
fixed-width string columns are capped at `_max_string_length = 244` bytes. -/
theorem writer114_header_constant (isBE : Bool) (nvar nobs : Nat)
    (dataLabel : Option (List Nat)) (ts : List Nat) :
    (Stata.writeHeader114 isBE nvar nobs dataLabel ts).head? = some 114 ∧
      Stata.maxStringLength114 = 244 ∧ Stata.encoding114 = "latin-1" := by
  exact ⟨rfl, rfl, rfl⟩

/-- Helper for C3: every year has at least 365 days. -/
theorem daysInYear_ge (y : Int) : 365 ≤ Stata.daysInYear y := by
  unfold Stata.daysInYear; split <;> norm_num

/-- C3: `%tw` round trip.  For every integer SIF week count `n`, decoding
with the read path's fixed 52-weeks-per-year-plus-`7 * remainder` policy
(`year = 1960 + n // 52`, `day_of_year = (n % 52) * 7`) and re-encoding
with the write path (`52 * (year - 1960) + day_of_year // 7`) yields `n`
again: the write path reproduces the read path's arithmetic exactly.  (In
this model every decoded year is representable, so the claim's
representability proviso is vacuous; the day count `(n % 52) * 7 ≤ 357`
never rolls over a year boundary.) -/
theorem tw_roundtrip (n : Int) :
    Stata.dateToTw (Stata.twToDate n).1 (Stata.twToDate n).2 = n := by
  have h365 : (365 : Int) ≤ Stata.daysInYear (1960 + n / 52) :=
    daysInYear_ge _
  have hcond : (((n % 52 * 7).toNat : Nat) : Int)
      < Stata.daysInYear (1960 + n / 52) := by omega
  unfold Stata.twToDate
  rw [Stata.normYearDay, dif_pos hcond]
  unfold Stata.dateToTw
  simp only
  have htn : (((n % 52 * 7).toNat : Nat) : Int) = n % 52 * 7 := by omega
  have hdiv : (n % 52 * 7) / 7 = n % 52 :=
    Int.mul_ediv_cancel _ (by norm_num)
  rw [htn, hdiv]
  omega

/-- Helper for C4/C8: a `readCall` on a not-yet-exhausted reader in
iterator mode returns the next `min k (nobs - cursor)` rows, indexed from
the cursor, and advances the cursor by that amount. -/
theorem readCall_some_step {α : Type} (sz k : Nat) (rows : List α)
    (cursor : Nat) (hsz : 1 ≤ sz) (hk : 1 ≤ k) (hcur : cursor < rows.length) :
    Stata.readCall sz ⟨rows, cursor⟩ (some k)
      = (.frame (List.range' cursor (min k (rows.length - cursor)))
          ((rows.drop cursor).take (min k (rows.length - cursor))),
        ⟨rows, cursor + min k (rows.length - cursor)⟩) := by
  unfold Stata.readCall
  have h1 : 0 < k * sz := Nat.mul_pos hk hsz
  have h2 : 0 < (rows.length - cursor) * sz := Nat.mul_pos (by omega) hsz
  rw [if_neg (by simp), if_neg (by simp only [Option.getD_some]; omega)]
  simp

/-- Helper for C4/C8: a `readCall` on an exhausted reader in iterator mode
raises `StopIteration` and leaves the state unchanged. -/
theorem readCall_some_exhausted {α : Type} (sz k : Nat) (rows : List α)
    (cursor : Nat) (hcur : rows.length ≤ cursor) :
    Stata.readCall sz ⟨rows, cursor⟩ (some k)
      = (.stopIteration, ⟨rows, cursor⟩) := by
  unfold Stata.readCall
  have h0 : rows.length - cursor = 0 := by omega
  rw [if_neg (by simp)]
  simp [h0]

/-- Helper for C4: gluing adjacent index ranges. -/
theorem range'_glue (s m n : Nat) :
    List.range' s m ++ List.range' (s + m) n = List.range' s (m + n) := by
  have h := List.range'_append s m n 1
  rw [one_mul] at h
  rw [Nat.add_comm m n, ← h]

/-- Helper for C4: concatenating the chunks read from any cursor position
reproduces the remaining rows with the running row index. -/
theorem readChunks_join {α : Type} (sz k : Nat) (rows : List α)
    (hsz : 1 ≤ sz) (hk : 1 ≤ k) :
    ∀ (fuel cursor : Nat), cursor ≤ rows.length →
      rows.length - cursor < fuel →
      ((Stata.readChunks sz k rows cursor fuel).map Prod.fst).join
          = List.range' cursor (rows.length - cursor) ∧
        ((Stata.readChunks sz k rows cursor fuel).map Prod.snd).join
          = rows.drop cursor := by
  intro fuel
  induction fuel with
  | zero => intro cursor _ hf; omega
  | succ fuel ih =>
    intro cursor hc hf
    by_cases hend : rows.length ≤ cursor
    · have hunf : Stata.readChunks sz k rows cursor (fuel + 1)
          = match Stata.readCall sz ⟨rows, cursor⟩ (some k) with
            | (.stopIteration, _) => []
            | (.frame idx out, s') =>
              (idx, out) :: Stata.readChunks sz k rows s'.cursor fuel := rfl
      rw [show Stata.readChunks sz k rows cursor (fuel + 1) = [] from by
        rw [hunf, readCall_some_exhausted sz k rows cursor hend]]
      have h0 : rows.length - cursor = 0 := by omega
      simp [h0, List.drop_eq_nil_of_le hend]
    · have hcur : cursor < rows.length := by omega
      have hm1 : 1 ≤ min k (rows.length - cursor) := by omega
      have hunf : Stata.readChunks sz k rows cursor (fuel + 1)
          = match Stata.readCall sz ⟨rows, cursor⟩ (some k) with
            | (.stopIteration, _) => []
            | (.frame idx out, s') =>
              (idx, out) :: Stata.readChunks sz k rows s'.cursor fuel := rfl
      have hstep : Stata.readChunks sz k rows cursor (fuel + 1)
          = (List.range' cursor (min k (rows.length - cursor)),
              (rows.drop cursor).take (min k (rows.length - cursor)))
            :: Stata.readChunks sz k rows
                (cursor + min k (rows.length - cursor)) fuel := by
        rw [hunf, readCall_some_step sz k rows cursor hsz hk hcur]
      obtain ⟨ih1, ih2⟩ :=
        ih (cursor + min k (rows.length - cursor)) (by omega) (by omega)
      rw [hstep]
      constructor
      · simp only [List.map_cons, List.join_cons, ih1]
        rw [range'_glue cursor _ _]
        congr 1
        omega
      · simp only [List.map_cons, List.join_cons, ih2]
        rw [show rows.drop (cursor + min k (rows.length - cursor))
            = (rows.drop cursor).drop (min k (rows.length - cursor)) from by
          rw [List.drop_drop]
          try congr 1
          try omega]
        exact List.take_append_drop _ (rows.drop cursor)

/-- C4: chunked read equals whole read.  For every chunk size `k ≥ 1` (and
positive record width), a one-shot `read()` returns all rows indexed
`0 .. nobs-1`, and concatenating the chunks produced by iterating
`read(nrows = k)` — each call resuming from the advanced cursor, each
chunk's index continuing from the cursor — yields exactly the same row
index and the same rows. -/
theorem chunked_read_eq_whole {α : Type} (sz k : Nat) (rows : List α)
    (hsz : 1 ≤ sz) (hk : 1 ≤ k) :
    (Stata.readCall sz ⟨rows, 0⟩ none).1
        = .frame (List.range rows.length) rows ∧
      ((Stata.readChunks sz k rows 0 (rows.length + 1)).map Prod.fst).join
          = List.range rows.length ∧
      ((Stata.readChunks sz k rows 0 (rows.length + 1)).map Prod.snd).join
          = rows := by
  refine ⟨?_, ?_, ?_⟩
  · by_cases h0 : rows.length = 0
    · rw [List.eq_nil_of_length_eq_zero h0]
      rw [show Stata.readCall sz (⟨[], 0⟩ : Stata.ReaderState α) none
          = (.frame [] [], ⟨[], 0⟩) from by unfold Stata.readCall; simp]
      simp
    · unfold Stata.readCall
      have h1 : 0 < rows.length * sz := Nat.mul_pos (by omega) hsz
      rw [if_neg (by simp [h0]),
        if_neg (by simp only [Option.getD_none, Nat.sub_zero]; omega)]
      simp [List.range_eq_range']
  · have h := (readChunks_join sz k rows hsz hk (rows.length + 1) 0
      (by omega) (by omega)).1
    rw [h, List.range_eq_range']
    simp
  · have h := (readChunks_join sz k rows hsz hk (rows.length + 1) 0
      (by omega) (by omega)).2
    rw [h, List.drop_zero]

/-- C4 witness: chunked equals whole at `rows = [10, 20, 30]`, `k = 2`,
record width 1. -/
theorem chunked_read_eq_whole_witness :
    (Stata.readCall 1 ⟨[10, 20, 30], 0⟩ none).1
        = .frame (List.range ([10, 20, 30] : List Nat).length) [10, 20, 30] ∧
      ((Stata.readChunks 1 2 [10, 20, 30] 0 (([10, 20, 30] : List Nat).length + 1)).map
          Prod.fst).join = List.range ([10, 20, 30] : List Nat).length ∧
      ((Stata.readChunks 1 2 [10, 20, 30] 0 (([10, 20, 30] : List Nat).length + 1)).map
          Prod.snd).join = [10, 20, 30] :=
  chunked_read_eq_whole 1 2 [10, 20, 30] (by norm_num) (by norm_num)

/-- C8 counterexample: the claim says a one-shot call with no remaining
rows returns an empty table; on a one-observation file whose row was
already consumed (`nobs = 1`, cursor 1), a one-shot `read()` (i.e.
`nrows = None`) raises `StopIteration` instead — the empty-frame early
return fires only when `nobs == 0`. -/
theorem read_oneshot_exhausted_counterexample :
    (Stata.readCall 1 ⟨([0] : List Nat), 1⟩ none).1
        = Stata.ReadResult.stopIteration ∧
      ∀ (idx : List Nat) (out : List Nat),
        (Stata.readCall 1 ⟨([0] : List Nat), 1⟩ none).1
          ≠ Stata.ReadResult.frame idx out := by
  have h : (Stata.readCall 1 ⟨([0] : List Nat), 1⟩ none).1
      = Stata.ReadResult.stopIteration := rfl
  refine ⟨h, fun idx out hne => ?_⟩
  rw [h] at hne
  exact Stata.ReadResult.noConfusion hne

/-- C8 (amended): every `read` call advances the cursor by exactly the
number of rows it returns and never past the observation count; a call in
iterator mode with no remaining rows raises `StopIteration`; a one-shot
call returns an empty table exactly when the file has zero observations,
and raises `StopIteration` when rows were consumed earlier and none
remain. -/
theorem read_end_of_data {α : Type} (sz : Nat) (s : Stata.ReaderState α)
    (hsz : 1 ≤ sz) (hc : s.cursor ≤ s.rows.length) :
    (∀ (nrows? : Option Nat) (idx : List Nat) (out : List α)
        (s' : Stata.ReaderState α),
        Stata.readCall sz s nrows? = (.frame idx out, s') →
          s'.rows = s.rows ∧ s'.cursor = s.cursor + out.length ∧
            s'.cursor ≤ s.rows.length) ∧
      (∀ k : Nat, 1 ≤ k → s.cursor = s.rows.length →
        (Stata.readCall sz s (some k)).1 = .stopIteration) ∧
      (s.rows = [] → (Stata.readCall sz s none).1 = .frame [] []) ∧
      (0 < s.rows.length → s.cursor = s.rows.length →
        (Stata.readCall sz s none).1 = .stopIteration) := by
  obtain ⟨rows, cursor⟩ := s
  dsimp only at hc ⊢
  refine ⟨?_, ?_, ?_, ?_⟩
  · intro nrows? idx out s' heq
    unfold Stata.readCall at heq
    dsimp only at heq
    split_ifs at heq with h1 h2
    · rw [Prod.mk.injEq] at heq
      obtain ⟨hf, hs⟩ := heq
      injection hf with hidx hout
      subst hs
      refine ⟨rfl, ?_, hc⟩
      rw [← hout]
      simp
    · exact absurd heq (by simp)
    · rw [Prod.mk.injEq] at heq
      obtain ⟨hf, hs⟩ := heq
      injection hf with hidx hout
      subst hs
      refine ⟨rfl, ?_, ?_⟩
      · dsimp only
        rw [← hout]
        simp only [List.length_take, List.length_drop]
        omega
      · dsimp only
        omega
  · intro k hk hcur
    rw [readCall_some_exhausted sz k rows cursor (by omega)]
  · intro hrows
    subst hrows
    rw [show Stata.readCall sz (⟨[], cursor⟩ : Stata.ReaderState α) none
        = (.frame [] [], ⟨[], cursor⟩) from by unfold Stata.readCall; simp]
  · intro hpos hcur
    unfold Stata.readCall
    dsimp only
    rw [if_neg (by simp only [not_and]; intro h0; omega)]
    have h0 : rows.length - cursor = 0 := by omega
    simp [h0]

/-- C8 witness: the amended behaviour on a one-row file with the row
already consumed — both an iterator-mode call (`nrows = 1`) and a one-shot
call raise `StopIteration`. -/
theorem read_end_of_data_witness :
    (Stata.readCall 1 ⟨([5] : List Nat), 1⟩ (some 1)).1
        = Stata.ReadResult.stopIteration ∧
      (Stata.readCall 1 ⟨([5] : List Nat), 1⟩ none).1
        = Stata.ReadResult.stopIteration :=
  ⟨(read_end_of_data 1 ⟨[5], 1⟩ (by norm_num) (by simp)).2.1 1 (by norm_num)
      (by simp),
    (read_end_of_data 1 ⟨[5], 1⟩ (by norm_num) (by simp)).2.2.2 (by simp)
      (by simp)⟩

/-- Helper: `Except` bind on a success. -/
theorem bindE_ok {ε α β : Type} (a : α) (f : α → Except ε β) :
    ((Except.ok a : Except ε α) >>= f) = f a := rfl

/-- Helper: reading exactly the leading segment of a stream. -/
theorem readBytes_exact (a rest : Stata.Stream) (n : Nat) (h : a.length = n) :
    Stata.readBytes n (a ++ rest) = .ok (a, rest) := by
  unfold Stata.readBytes
  rw [if_neg (by simp [h]), List.take_append_of_le_length (by omega),
    List.drop_append_of_le_length (by omega), ← h, List.take_length,
    List.drop_length]
  simp

/-- Helper: reading `count` equal-width all-zero fields. -/
theorem readN_replicate (count width : Nat) (chunk : List Nat)
    (hw : chunk.length = width) (rest : Stata.Stream) :
    Stata.readN count width ((List.replicate count chunk).flatten ++ rest)
      = .ok (List.replicate count chunk, rest) := by
  induction count with
  | zero => simp [Stata.readN]
  | succ c ih =>
    rw [List.replicate_succ, List.flatten_cons, List.append_assoc]
    unfold Stata.readN
    rw [readBytes_exact chunk _ width hw, bindE_ok]
    dsimp only
    rw [ih, bindE_ok]

/-- Helper: the expansion-field loop stops at the 0-type terminator. -/
theorem skipExpansion_term (w : Nat) (isBE : Bool) (rest : Stata.Stream)
    (fuel : Nat) :
    Stata.skipExpansion w isBE (List.replicate (1 + w) 0 ++ rest) (fuel + 1)
      = .ok rest := by
  rw [show (1 + w) = w + 1 from by omega, List.replicate_succ,
    List.cons_append]
  show Stata.skipExpansion w isBE (0 :: (List.replicate w 0 ++ rest)) (fuel + 1)
    = .ok rest
  unfold Stata.skipExpansion
  rw [show (0 : Nat) :: (List.replicate w 0 ++ rest)
      = [0] ++ (List.replicate w 0 ++ rest) from rfl,
    readBytes_exact [0] _ 1 rfl, bindE_ok]
  dsimp only
  rw [readBytes_exact (List.replicate w 0) rest w (by simp), bindE_ok]
  dsimp only
  simp [Stata.int8OfByte]

/-- Helper: `all` over a constant list. -/
theorem all_replicate_true {α : Type} (p : α → Bool) (a : α) (n : Nat)
    (h : p a = true) : (List.replicate n a).all p = true := by
  induction n with
  | zero => rfl
  | succ n ih => simp [List.replicate_succ, List.all_cons, h, ih]

/-- Helper: a zero-length read. -/
theorem readBytes_zero (s : Stata.Stream) :
    Stata.readBytes 0 s = .ok ([], s) := by
  simp [Stata.readBytes]

/-- Helper: unsigned little-endian decode of an in-range value. -/
theorem fieldVal_leBytes_of_lt (n w : Nat) (h : n < 256 ^ w) :
    Stata.fieldVal false (Stata.leBytes n w) = n := by
  rw [show Stata.fieldVal false (Stata.leBytes n w)
      = Stata.leVal (Stata.leBytes n w) from rfl, Stata.leVal_leBytes,
    Nat.mod_eq_of_lt h]

/-- Helper for C5: a well-formed legacy file with version in
`{105, 108, 111, 113, 114, 115}` parses successfully and yields its
version, byte order, variable count and observation count. -/
theorem parseOld_ok (nvar nobs : Nat) (hnv : nvar < 2 ^ 16)
    (hno : nobs < 2 ^ 32) (version : Int)
    (hmem : version ∈ ([105, 108, 111, 113, 114, 115] : List Int)) :
    Stata.readHeader (Stata.mkOldFile version nvar nobs)
      = .ok ⟨version, false, nvar, nobs⟩ := by
  have hrange : 104 < version ∧ version ≤ 115 := by
    fin_cases hmem <;> norm_num
  have h104 : version > 104 := hrange.1
  have hmem7 : version ∈ ([104, 105, 108, 111, 113, 114, 115] : List Int) := by
    fin_cases hmem <;> norm_num
  unfold Stata.mkOldFile Stata.readHeader
  dsimp only
  rw [if_neg (show ¬((version % 256).toNat = 60) from by omega)]
  rw [show Stata.int8OfByte ((version % 256).toNat) = version from by
    unfold Stata.int8OfByte
    rw [if_pos (by omega)]
    omega]
  unfold Stata.parseOldHeader
  rw [if_pos hmem7]
  rw [readBytes_exact [2] _ 1 rfl, bindE_ok]
  dsimp only
  rw [readBytes_exact [1] _ 1 rfl, bindE_ok]
  dsimp only
  rw [readBytes_exact [0] _ 1 rfl, bindE_ok]
  dsimp only
  rw [readBytes_exact (Stata.leBytes nvar 2) _ 2 (Stata.leBytes_length nvar 2),
    bindE_ok]
  dsimp only
  rw [readBytes_exact (Stata.leBytes nobs 4) _ 4 (Stata.leBytes_length nobs 4),
    bindE_ok]
  dsimp only
  rw [readBytes_exact (List.replicate (Stata.dataLabelWidth version) 0) _ _
    (List.length_replicate _ _), bindE_ok]
  dsimp only
  have hbe : (decide (([2] : List Nat).headD 0 = 1)) = false := by decide
  rw [hbe]
  have hnv' : Stata.fieldVal false (Stata.leBytes nvar 2) = nvar :=
    fieldVal_leBytes_of_lt nvar 2
      (by have : (256 : Nat) ^ 2 = 2 ^ 16 := by norm_num
          omega)
  have hno' : Stata.fieldVal false (Stata.leBytes nobs 4) = nobs :=
    fieldVal_leBytes_of_lt nobs 4
      (by have : (256 : Nat) ^ 4 = 2 ^ 32 := by norm_num
          omega)
  rw [hnv', hno']
  rw [if_pos h104]
  rw [if_pos h104]
  rw [readBytes_exact (List.replicate 18 0) _ 18 (List.length_replicate _ _),
    bindE_ok]
  dsimp only
  rw [readBytes_exact
    (if version > 108 then List.replicate nvar 255 else List.replicate nvar 100)
    _ nvar (by split <;> simp), bindE_ok]
  dsimp only
  have htyp : ((if version > 108 then
        List.map Int.ofNat
          (if version > 108 then List.replicate nvar (255 : Nat)
            else List.replicate nvar 100)
      else
        List.map Stata.oldTypeMap
          (if version > 108 then List.replicate nvar 255
            else List.replicate nvar 100)).all Stata.legacyCodeOk) = true := by
    by_cases h108 : version > 108
    · simp only [if_pos h108, List.map_replicate]
      exact all_replicate_true _ _ _ (by decide)
    · simp only [if_neg h108, List.map_replicate]
      exact all_replicate_true _ _ _ (by decide)
  rw [if_pos htyp]
  rw [readN_replicate nvar (Stata.varnameWidth version)
    (List.replicate (Stata.varnameWidth version) 0)
    (List.length_replicate _ _) _, bindE_ok]
  dsimp only
  rw [readBytes_exact (List.replicate (2 * (nvar + 1)) 0) _ _
    (List.length_replicate _ _), bindE_ok]
  dsimp only
  rw [readN_replicate nvar (Stata.fmtWidth version)
    (List.replicate (Stata.fmtWidth version) 0)
    (List.length_replicate _ _) _, bindE_ok]
  dsimp only
  rw [readN_replicate nvar (Stata.lblWidth version)
    (List.replicate (Stata.lblWidth version) 0)
    (List.length_replicate _ _) _, bindE_ok]
  dsimp only
  rw [readN_replicate nvar (Stata.vlblWidth version)
    (List.replicate (Stata.vlblWidth version) 0)
    (List.length_replicate _ _) _, bindE_ok]
  dsimp only
  rw [if_pos h104]
  rw [if_pos h104]
  rw [show List.replicate (1 + (if version > 108 then 4 else (2 : Nat))) (0 : Nat)
      = List.replicate (1 + (if version > 108 then 4 else 2)) 0
        ++ ([] : Stata.Stream)
    from (List.append_nil _).symm]
  rw [skipExpansion_term _ _ [] _, bindE_ok]

/-- Helper: `Except` bind on an error. -/
theorem bindE_err {e a b : Type} (err : e) (f : a → Except e b) :
    ((Except.error err : Except e a) >>= f) = .error err := rfl

/-- Helper for C5: a well-formed tagged file with version 117, 118 or 119
parses successfully and yields its version, byte order, variable count and
observation count. -/
theorem parseNew_ok (nvar nobs : Nat) (hnv : nvar < 2 ^ 16)
    (hno : nobs < 2 ^ 32) (version : Nat)
    (hmem : version ∈ ([117, 118, 119] : List Nat)) :
    Stata.readHeader (Stata.mkNewFile version nvar nobs)
      = .ok ⟨version, false, nvar, nobs⟩ := by
  simp only [List.mem_cons, List.not_mem_nil, or_false] at hmem
  rcases hmem with rfl | rfl | rfl
  · unfold Stata.mkNewFile Stata.readHeader
    dsimp only
    rw [if_pos rfl]
    unfold Stata.parseNewHeader
    rw [readBytes_exact (List.replicate 27 0) _ 27 (by simp), bindE_ok]
    dsimp only
    rw [readBytes_exact (Stata.releaseDigits 117) _ 3 rfl, bindE_ok]
    dsimp only
    rw [show Stata.digitsVal (Stata.releaseDigits 117) = .ok 117 from rfl,
      bindE_ok]
    rw [if_pos (show (117 : Int) ∈ ([117, 118, 119] : List Int) from by decide)]
    rw [readBytes_exact (List.replicate 21 0) _ 21 (by simp), bindE_ok]
    dsimp only
    rw [readBytes_exact [76, 83, 70] _ 3 rfl, bindE_ok]
    dsimp only
    have hbe : (decide (([76, 83, 70] : List Nat) = [77, 83, 70])) = false := by
      decide
    rw [hbe]
    rw [readBytes_exact (List.replicate 15 0) _ 15 (by simp), bindE_ok]
    dsimp only
    rw [if_pos (show (117 : Int) ≤ 118 from by norm_num),
      if_pos (show (117 : Nat) ≤ 118 from by norm_num)]
    rw [readBytes_exact (Stata.leBytes nvar 2) _ 2 (Stata.leBytes_length _ _),
      bindE_ok]
    dsimp only
    rw [readBytes_exact (List.replicate 7 0) _ 7 (by simp), bindE_ok]
    dsimp only
    rw [if_neg (show ¬((117 : Int) ≥ 118) from by norm_num),
      if_neg (show ¬((117 : Nat) ≥ 118) from by norm_num)]
    rw [readBytes_exact (Stata.leBytes nobs 4) _ 4 (Stata.leBytes_length _ _),
      bindE_ok]
    dsimp only
    rw [readBytes_exact (List.replicate 11 0) _ 11 (by simp), bindE_ok]
    dsimp only
    rw [if_neg (show ¬((117 : Int) ≥ 118) from by norm_num),
      if_neg (show ¬((117 : Nat) ≥ 118) from by norm_num)]
    rw [readBytes_exact (List.replicate 1 0) _ 1 (by simp), bindE_ok]
    dsimp only
    rw [show Stata.fieldVal false (List.replicate 1 0) = 0 from rfl,
      readBytes_zero, bindE_ok]
    dsimp only
    rw [readBytes_exact (List.replicate 19 0) _ 19 (by simp), bindE_ok]
    dsimp only
    rw [readBytes_exact [0] _ 1 rfl, bindE_ok]
    dsimp only
    rw [show Stata.leVal [(0 : Nat)] = 0 from rfl, readBytes_zero, bindE_ok]
    dsimp only
    rw [readBytes_exact (List.replicate 26 0) _ 26 (by simp), bindE_ok]
    dsimp only
    rw [readBytes_exact (List.replicate 8 0) _ 8 (by simp), bindE_ok]
    dsimp only
    rw [readBytes_exact (List.replicate 8 0) _ 8 (by simp), bindE_ok]
    dsimp only
    rw [readBytes_exact (List.replicate 8 0) _ 8 (by simp), bindE_ok]
    dsimp only
    rw [readBytes_exact (List.replicate 8 0) _ 8 (by simp), bindE_ok]
    dsimp only
    rw [readBytes_exact (List.replicate 8 0) _ 8 (by simp), bindE_ok]
    dsimp only
    rw [readBytes_exact (List.replicate 8 0) _ 8 (by simp), bindE_ok]
    dsimp only
    rw [readBytes_exact (List.replicate 8 0) _ 8 (by simp), bindE_ok]
    dsimp only
    rw [readBytes_exact (List.replicate 8 0) _ 8 (by simp), bindE_ok]
    dsimp only
    rw [readBytes_exact (List.replicate 8 0) _ 8 (by simp), bindE_ok]
    dsimp only
    rw [readBytes_exact (List.replicate 8 0) _ 8 (by simp), bindE_ok]
    dsimp only
    rw [readBytes_exact (List.replicate 8 0) _ 8 (by simp), bindE_ok]
    dsimp only
    rw [readBytes_exact (List.replicate 8 0) _ 8 (by simp), bindE_ok]
    rw [fieldVal_leBytes_of_lt nvar 2
        (by have : (256 : Nat) ^ 2 = 2 ^ 16 := by norm_num
            omega),
      fieldVal_leBytes_of_lt nobs 4
        (by have : (256 : Nat) ^ 4 = 2 ^ 32 := by norm_num
            omega)]
    norm_num
  · unfold Stata.mkNewFile Stata.readHeader
    dsimp only
    rw [if_pos rfl]
    unfold Stata.parseNewHeader
    rw [readBytes_exact (List.replicate 27 0) _ 27 (by simp), bindE_ok]
    dsimp only
    rw [readBytes_exact (Stata.releaseDigits 118) _ 3 rfl, bindE_ok]
    dsimp only
    rw [show Stata.digitsVal (Stata.releaseDigits 118) = .ok 118 from rfl,
      bindE_ok]
    rw [if_pos (show (118 : Int) ∈ ([117, 118, 119] : List Int) from by decide)]
    rw [readBytes_exact (List.replicate 21 0) _ 21 (by simp), bindE_ok]
    dsimp only
    rw [readBytes_exact [76, 83, 70] _ 3 rfl, bindE_ok]
    dsimp only
    have hbe : (decide (([76, 83, 70] : List Nat) = [77, 83, 70])) = false := by
      decide
    rw [hbe]
    rw [readBytes_exact (List.replicate 15 0) _ 15 (by simp), bindE_ok]
    dsimp only
    rw [if_pos (show (118 : Int) ≤ 118 from by norm_num),
      if_pos (show (118 : Nat) ≤ 118 from by norm_num)]
    rw [readBytes_exact (Stata.leBytes nvar 2) _ 2 (Stata.leBytes_length _ _),
      bindE_ok]
    dsimp only
    rw [readBytes_exact (List.replicate 7 0) _ 7 (by simp), bindE_ok]
    dsimp only
    rw [if_pos (show (118 : Int) ≥ 118 from by norm_num),
      if_pos (show (118 : Nat) ≥ 118 from by norm_num)]
    rw [readBytes_exact (Stata.leBytes nobs 8) _ 8 (Stata.leBytes_length _ _),
      bindE_ok]
    dsimp only
    rw [readBytes_exact (List.replicate 11 0) _ 11 (by simp), bindE_ok]
    dsimp only
    rw [if_pos (show (118 : Int) ≥ 118 from by norm_num),
      if_pos (show (118 : Nat) ≥ 118 from by norm_num)]
    rw [readBytes_exact (List.replicate 2 0) _ 2 (by simp), bindE_ok]
    dsimp only
    rw [show Stata.fieldVal false (List.replicate 2 0) = 0 from rfl,
      readBytes_zero, bindE_ok]
    dsimp only
    rw [readBytes_exact (List.replicate 19 0) _ 19 (by simp), bindE_ok]
    dsimp only
    rw [readBytes_exact [0] _ 1 rfl, bindE_ok]
    dsimp only
    rw [show Stata.leVal [(0 : Nat)] = 0 from rfl, readBytes_zero, bindE_ok]
    dsimp only
    rw [readBytes_exact (List.replicate 26 0) _ 26 (by simp), bindE_ok]
    dsimp only
    rw [readBytes_exact (List.replicate 8 0) _ 8 (by simp), bindE_ok]
    dsimp only
    rw [readBytes_exact (List.replicate 8 0) _ 8 (by simp), bindE_ok]
    dsimp only
    rw [readBytes_exact (List.replicate 8 0) _ 8 (by simp), bindE_ok]
    dsimp only
    rw [readBytes_exact (List.replicate 8 0) _ 8 (by simp), bindE_ok]
    dsimp only
    rw [readBytes_exact (List.replicate 8 0) _ 8 (by simp), bindE_ok]
    dsimp only
    rw [readBytes_exact (List.replicate 8 0) _ 8 (by simp), bindE_ok]
    dsimp only
    rw [readBytes_exact (List.replicate 8 0) _ 8 (by simp), bindE_ok]
    dsimp only
    rw [readBytes_exact (List.replicate 8 0) _ 8 (by simp), bindE_ok]
    dsimp only
    rw [readBytes_exact (List.replicate 8 0) _ 8 (by simp), bindE_ok]
    dsimp only
    rw [readBytes_exact (List.replicate 8 0) _ 8 (by simp), bindE_ok]
    dsimp only
    rw [readBytes_exact (List.replicate 8 0) _ 8 (by simp), bindE_ok]
    dsimp only
    rw [readBytes_exact (List.replicate 8 0) _ 8 (by simp), bindE_ok]
    rw [fieldVal_leBytes_of_lt nvar 2
        (by have : (256 : Nat) ^ 2 = 2 ^ 16 := by norm_num
            omega),
      fieldVal_leBytes_of_lt nobs 8
        (by have : (256 : Nat) ^ 8 = 2 ^ 64 := by norm_num
            omega)]
    norm_num
  · unfold Stata.mkNewFile Stata.readHeader
    dsimp only
    rw [if_pos rfl]
    unfold Stata.parseNewHeader
    rw [readBytes_exact (List.replicate 27 0) _ 27 (by simp), bindE_ok]
    dsimp only
    rw [readBytes_exact (Stata.releaseDigits 119) _ 3 rfl, bindE_ok]
    dsimp only
    rw [show Stata.digitsVal (Stata.releaseDigits 119) = .ok 119 from rfl,
      bindE_ok]
    rw [if_pos (show (119 : Int) ∈ ([117, 118, 119] : List Int) from by decide)]
    rw [readBytes_exact (List.replicate 21 0) _ 21 (by simp), bindE_ok]
    dsimp only
    rw [readBytes_exact [76, 83, 70] _ 3 rfl, bindE_ok]
    dsimp only
    have hbe : (decide (([76, 83, 70] : List Nat) = [77, 83, 70])) = false := by
      decide
    rw [hbe]
    rw [readBytes_exact (List.replicate 15 0) _ 15 (by simp), bindE_ok]
    dsimp only
    rw [if_neg (show ¬((119 : Int) ≤ 118) from by norm_num),
      if_neg (show ¬((119 : Nat) ≤ 118) from by norm_num)]
    rw [readBytes_exact (Stata.leBytes nvar 4) _ 4 (Stata.leBytes_length _ _),
      bindE_ok]
    dsimp only
    rw [readBytes_exact (List.replicate 7 0) _ 7 (by simp), bindE_ok]
    dsimp only
    rw [if_pos (show (119 : Int) ≥ 118 from by norm_num),
      if_pos (show (119 : Nat) ≥ 118 from by norm_num)]
    rw [readBytes_exact (Stata.leBytes nobs 8) _ 8 (Stata.leBytes_length _ _),
      bindE_ok]
    dsimp only
    rw [readBytes_exact (List.replicate 11 0) _ 11 (by simp), bindE_ok]
    dsimp only
    rw [if_pos (show (119 : Int) ≥ 118 from by norm_num),
      if_pos (show (119 : Nat) ≥ 118 from by norm_num)]
    rw [readBytes_exact (List.replicate 2 0) _ 2 (by simp), bindE_ok]
    dsimp only
    rw [show Stata.fieldVal false (List.replicate 2 0) = 0 from rfl,
      readBytes_zero, bindE_ok]
    dsimp only
    rw [readBytes_exact (List.replicate 19 0) _ 19 (by simp), bindE_ok]
    dsimp only
    rw [readBytes_exact [0] _ 1 rfl, bindE_ok]
    dsimp only
    rw [show Stata.leVal [(0 : Nat)] = 0 from rfl, readBytes_zero, bindE_ok]
    dsimp only
    rw [readBytes_exact (List.replicate 26 0) _ 26 (by simp), bindE_ok]
    dsimp only
    rw [readBytes_exact (List.replicate 8 0) _ 8 (by simp), bindE_ok]
    dsimp only
    rw [readBytes_exact (List.replicate 8 0) _ 8 (by simp), bindE_ok]
    dsimp only
    rw [readBytes_exact (List.replicate 8 0) _ 8 (by simp), bindE_ok]
    dsimp only
    rw [readBytes_exact (List.replicate 8 0) _ 8 (by simp), bindE_ok]
    dsimp only
    rw [readBytes_exact (List.replicate 8 0) _ 8 (by simp), bindE_ok]
    dsimp only
    rw [readBytes_exact (List.replicate 8 0) _ 8 (by simp), bindE_ok]
    dsimp only
    rw [readBytes_exact (List.replicate 8 0) _ 8 (by simp), bindE_ok]
    dsimp only
    rw [readBytes_exact (List.replicate 8 0) _ 8 (by simp), bindE_ok]
    dsimp only
    rw [readBytes_exact (List.replicate 8 0) _ 8 (by simp), bindE_ok]
    dsimp only
    rw [readBytes_exact (List.replicate 8 0) _ 8 (by simp), bindE_ok]
    dsimp only
    rw [readBytes_exact (List.replicate 8 0) _ 8 (by simp), bindE_ok]
    dsimp only
    rw [readBytes_exact (List.replicate 8 0) _ 8 (by simp), bindE_ok]
    rw [fieldVal_leBytes_of_lt nvar 4
        (by have : (256 : Nat) ^ 4 = 2 ^ 32 := by norm_num
            omega),
      fieldVal_leBytes_of_lt nobs 8
        (by have : (256 : Nat) ^ 8 = 2 ^ 64 := by norm_num
            omega)]
    norm_num

/-- Helper for C5: a well-formed version-104 file passes the version check,
but `_get_time_stamp` unconditionally raises a bare `ValueError` for
`format_version <= 104`, so the header read always fails. -/
theorem parseOld_104 (nvar nobs : Nat) :
    Stata.readHeader (Stata.mkOldFile 104 nvar nobs) = .error .valueError := by
  unfold Stata.mkOldFile Stata.readHeader
  dsimp only
  rw [if_neg (show ¬((((104 : Int)) % 256).toNat = 60) from by decide)]
  rw [show Stata.int8OfByte (((104 : Int) % 256).toNat) = 104 from by decide]
  unfold Stata.parseOldHeader
  rw [if_pos (show (104 : Int) ∈ ([104, 105, 108, 111, 113, 114, 115] : List Int)
    from by decide)]
  rw [readBytes_exact [2] _ 1 rfl, bindE_ok]
  dsimp only
  rw [readBytes_exact [1] _ 1 rfl, bindE_ok]
  dsimp only
  rw [readBytes_exact [0] _ 1 rfl, bindE_ok]
  dsimp only
  rw [readBytes_exact (Stata.leBytes nvar 2) _ 2 (Stata.leBytes_length nvar 2),
    bindE_ok]
  dsimp only
  rw [readBytes_exact (Stata.leBytes nobs 4) _ 4 (Stata.leBytes_length nobs 4),
    bindE_ok]
  dsimp only
  rw [readBytes_exact (List.replicate (Stata.dataLabelWidth 104) 0) _ _
    (List.length_replicate _ _), bindE_ok]
  dsimp only
  rw [if_neg (show ¬((104 : Int) > 104) from by norm_num), bindE_err]

/-- Helper for C5: a legacy-layout file whose version byte is outside the
ten known versions is rejected with the unsupported-version error. -/
theorem parseOld_unsupported (nvar nobs : Nat) (version : Int)
    (hlo : -128 ≤ version) (hhi : version ≤ 127)
    (hnotin : version ∉
      ([104, 105, 108, 111, 113, 114, 115, 117, 118, 119] : List Int))
    (hne60 : version ≠ 60) :
    Stata.readHeader (Stata.mkOldFile version nvar nobs)
      = .error (.unsupportedVersion version) := by
  have h7 : version ∉ ([104, 105, 108, 111, 113, 114, 115] : List Int) := by
    intro hyp
    apply hnotin
    fin_cases hyp <;> decide
  unfold Stata.mkOldFile Stata.readHeader
  dsimp only
  rw [if_neg (show ¬((version % 256).toNat = 60) from by omega)]
  rw [show Stata.int8OfByte ((version % 256).toNat) = version from by
    unfold Stata.int8OfByte
    by_cases h : (version % 256).toNat < 128
    · rw [if_pos h]; omega
    · rw [if_neg h]; omega]
  unfold Stata.parseOldHeader
  rw [if_neg h7]

/-- Helper for C5: `int()` of the three generated ASCII release digits. -/
theorem digitsVal_releaseDigits (v : Nat) (h : v ≤ 999) :
    Stata.digitsVal (Stata.releaseDigits v) = .ok v := by
  unfold Stata.digitsVal Stata.releaseDigits
  rw [if_pos (by
    simp only [List.all_cons, List.all_nil, Bool.and_true, Bool.and_eq_true,
      decide_eq_true_eq]
    omega)]
  simp only [List.foldl]
  congr 1
  push_cast
  omega

/-- Helper for C5: a tagged-layout file whose three-digit release number is
not 117, 118 or 119 is rejected with the unsupported-version error. -/
theorem parseNew_unsupported (nvar nobs : Nat) (version : Nat)
    (hlo : 100 ≤ version) (hhi : version ≤ 999)
    (hnotin : version ∉ ([117, 118, 119] : List Nat)) :
    Stata.readHeader (Stata.mkNewFile version nvar nobs)
      = .error (.unsupportedVersion version) := by
  have h3 : ¬((version : Int) ∈ ([117, 118, 119] : List Int)) := by
    simp only [List.mem_cons, List.not_mem_nil, or_false, not_or] at hnotin ⊢
    push_cast
    omega
  unfold Stata.mkNewFile Stata.readHeader
  dsimp only
  rw [if_pos rfl]
  unfold Stata.parseNewHeader
  rw [readBytes_exact (List.replicate 27 0) _ 27 (by simp), bindE_ok]
  dsimp only
  rw [readBytes_exact (Stata.releaseDigits version) _ 3 rfl, bindE_ok]
  dsimp only
  rw [digitsVal_releaseDigits version hhi, bindE_ok]
  rw [if_neg h3]

/-- C5 counterexample: the claim says header parsing succeeds for every
well-formed file whose version is one of the 10 known values, which include
104.  A well-formed version-104 file passes the version check but the read
aborts with a bare `ValueError` raised by `_get_time_stamp`: it never
succeeds (the `_version_error` message itself omits 104 from the supported
list). -/
theorem header_version_104_counterexample :
    Stata.readHeader (Stata.mkOldFile 104 1 1) = .error .valueError ∧
      ∀ p : Stata.Preamble, Stata.readHeader (Stata.mkOldFile 104 1 1) ≠ .ok p := by
  have h := parseOld_104 1 1
  refine ⟨h, fun p hp => ?_⟩
  rw [h] at hp
  exact Except.noConfusion hp

/-- C5 (amended): header parsing succeeds for every well-formed file whose
version is one of the nine values {105, 108, 111, 113, 114, 115, 117, 118,
119}, returning the declared version, byte order and counts; a well-formed
version-104 file always fails with a bare `ValueError` from the timestamp
read; and the unsupported-version error is raised exactly for version
fields outside the 10-value set (legacy layout: any signed version byte
outside the set; tagged layout: any 3-digit release other than
117/118/119). -/
theorem header_version_dispatch (nvar nobs : Nat) (hnv : nvar < 2 ^ 16)
    (hno : nobs < 2 ^ 32) :
    (∀ version : Int, version ∈ ([105, 108, 111, 113, 114, 115] : List Int) →
      Stata.readHeader (Stata.mkOldFile version nvar nobs)
        = .ok ⟨version, false, nvar, nobs⟩) ∧
      (∀ version : Nat, version ∈ ([117, 118, 119] : List Nat) →
        Stata.readHeader (Stata.mkNewFile version nvar nobs)
          = .ok ⟨version, false, nvar, nobs⟩) ∧
      Stata.readHeader (Stata.mkOldFile 104 nvar nobs) = .error .valueError ∧
      (∀ version : Int, -128 ≤ version → version ≤ 127 →
        version ∉
          ([104, 105, 108, 111, 113, 114, 115, 117, 118, 119] : List Int) →
        version ≠ 60 →
        Stata.readHeader (Stata.mkOldFile version nvar nobs)
          = .error (.unsupportedVersion version)) ∧
      (∀ version : Nat, 100 ≤ version → version ≤ 999 →
        version ∉ ([117, 118, 119] : List Nat) →
        Stata.readHeader (Stata.mkNewFile version nvar nobs)
          = .error (.unsupportedVersion version)) :=
  ⟨fun v hv => parseOld_ok nvar nobs hnv hno v hv,
    fun v hv => parseNew_ok nvar nobs hnv hno v hv,
    parseOld_104 nvar nobs,
    fun v h1 h2 h3 h4 => parseOld_unsupported nvar nobs v h1 h2 h3 h4,
    fun v h1 h2 h3 => parseNew_unsupported nvar nobs v h1 h2 h3⟩

/-- C5 witness: the amended dispatch at one-column one-row files — version
114 and 118 parse, version 112 (legacy) and release 200 (tagged) are
rejected as unsupported. -/
theorem header_version_dispatch_witness :
    Stata.readHeader (Stata.mkOldFile 114 1 1) = .ok ⟨114, false, 1, 1⟩ ∧
      Stata.readHeader (Stata.mkNewFile 118 1 1) = .ok ⟨118, false, 1, 1⟩ ∧
      Stata.readHeader (Stata.mkOldFile 112 1 1)
        = .error (.unsupportedVersion 112) ∧
      Stata.readHeader (Stata.mkNewFile 200 1 1)
        = .error (.unsupportedVersion 200) :=
  ⟨(header_version_dispatch 1 1 (by norm_num) (by norm_num)).1 114 (by decide),
    (header_version_dispatch 1 1 (by norm_num) (by norm_num)).2.1 118
      (by decide),
    (header_version_dispatch 1 1 (by norm_num) (by norm_num)).2.2.2.1 112
      (by norm_num) (by norm_num) (by decide) (by norm_num),
    (header_version_dispatch 1 1 (by norm_num) (by norm_num)).2.2.2.2 200
      (by norm_num) (by norm_num) (by decide)⟩

/-- Helper for C6: every reserved word has at most 9 characters. -/
theorem reserved_len : ∀ w ∈ Stata.reservedWords, w.data.length ≤ 9 := by
  decide

/-- Helper for C6: prefixing a reserved word with an underscore never
lands on another reserved word. -/
theorem reserved_underscore :
    ∀ w ∈ Stata.reservedWords, ("_" ++ w) ∉ Stata.reservedWords := by
  decide

/-- Helper for C6: no reserved word is an underscore followed by a
digit. -/
theorem reserved_shape :
    ∀ w ∈ Stata.reservedWords,
      w.data.headD ' ' = '_' →
      ¬('0' ≤ w.data.tail.headD ' ' ∧ w.data.tail.headD ' ' ≤ '9') := by
  decide

/-- Helper for C6: the character-replacement fold maps characters
pointwise; characters are rewritten consistently by a single substitution
function whose behaviour on the processed characters is forced. -/
theorem foldl_validate (cs : List Char) :
    ∀ (g : Char → Char) (cs0 : List Char),
      (∀ d, Stata.okChar d = true → g d = d) →
      (∀ d, Stata.okChar d = false → g d = d ∨ g d = '_') →
      ∃ g' : Char → Char,
        (cs.foldl
            (fun cur c =>
              if Stata.okChar c then cur
              else cur.map fun x => if x = c then '_' else x)
            (cs0.map g)
          = cs0.map g') ∧
        (∀ d, Stata.okChar d = true → g' d = d) ∧
        (∀ d, Stata.okChar d = false → g' d = d ∨ g' d = '_') ∧
        (∀ d ∈ cs, Stata.okChar d = false → g' d = '_') ∧
        (∀ d, g d = '_' → g' d = '_') := by
  induction cs with
  | nil =>
    intro g cs0 h1 h2
    exact ⟨g, rfl, h1, h2, by simp, fun d h => h⟩
  | cons c cs ih =>
    intro g cs0 h1 h2
    by_cases hc : Stata.okChar c = true
    · obtain ⟨g', hfold, p1, p2, p3, p4⟩ := ih g cs0 h1 h2
      refine ⟨g', ?_, p1, p2, ?_, p4⟩
      · rw [List.foldl_cons, if_pos hc]
        exact hfold
      · intro d hd hbad
        rcases List.mem_cons.mp hd with rfl | hd
        · rw [hc] at hbad; cases hbad
        · exact p3 d hd hbad
    · have hc' : Stata.okChar c = false := by
        cases h : Stata.okChar c
        · rfl
        · exact absurd h hc
      have hund : Stata.okChar '_' = true := by decide
      obtain ⟨g', hfold, p1, p2, p3, p4⟩ :=
        ih (fun d => if g d = c then '_' else g d) cs0
          (fun d hd => by
            have hgd : g d = d := h1 d hd
            simp only [hgd]
            rw [if_neg]
            intro hdc
            rw [hdc, hc'] at hd
            cases hd)
          (fun d hd => by
            rcases h2 d hd with hgd | hgd <;> simp only [hgd]
            · split
              · exact Or.inr rfl
              · exact Or.inl rfl
            · rw [if_neg]
              · exact Or.inr rfl
              · intro h
                rw [h] at hund
                rw [hund] at hc'
                cases hc')
      refine ⟨g', ?_, p1, p2, ?_, ?_⟩
      · rw [List.foldl_cons, if_neg hc, List.map_map]
        exact hfold
      · intro d hd hbad
        rcases List.mem_cons.mp hd with rfl | hd
        · apply p4
          rcases h2 d hbad with hgd | hgd <;> simp only [hgd]
          · simp
          · rw [if_neg]
            intro h
            rw [h] at hund
            rw [hund] at hc'
            cases hc'
        · exact p3 d hd hbad
      · intro d hgd
        apply p4
        simp only [hgd]
        rw [if_neg]
        intro h
        rw [h] at hund
        rw [hund] at hc'
        cases hc'

/-- Helper for C6: `_validate_variable_name` replaces exactly the invalid
characters with `'_'`, pointwise. -/
theorem validate_eq (x : String) :
    Stata.validateVariableName x
      = ⟨x.data.map fun c => if Stata.okChar c then c else '_'⟩ := by
  obtain ⟨g', hfold, p1, p2, p3, _⟩ :=
    foldl_validate x.data id x.data (fun d _ => rfl) (fun d _ => Or.inl rfl)
  rw [List.map_id] at hfold
  unfold Stata.validateVariableName
  rw [hfold]
  have hmap : List.map g' x.data
      = List.map (fun c => if Stata.okChar c then c else '_') x.data := by
    refine List.map_congr_left fun c hc => ?_
    by_cases h : Stata.okChar c = true
    · rw [if_pos h, p1 c h]
    · have h' : Stata.okChar c = false := by
        cases hh : Stata.okChar c
        · rfl
        · exact absurd hh h
      rw [if_neg (by simp [h']), p3 c hc h']
  rw [hmap]

/-- Helper for C6: every character of a validated name is valid. -/
theorem validate_mem_ok (x : String) :
    ∀ c ∈ (Stata.validateVariableName x).data, Stata.okChar c = true := by
  rw [validate_eq]
  intro c hc
  obtain ⟨d, _, rfl⟩ := List.mem_map.mp hc
  by_cases h : Stata.okChar d = true
  · rwa [if_pos h]
  · rw [if_neg h]; decide

/-- Helper for C6: a name of valid characters is left unchanged. -/
theorem validate_of_all_ok (x : String)
    (h : ∀ c ∈ x.data, Stata.okChar c = true) :
    Stata.validateVariableName x = x := by
  rw [validate_eq]
  have hm : (x.data.map fun c => if Stata.okChar c then c else '_') = x.data := by
    conv_rhs => rw [show x.data = x.data.map id from (List.map_id _).symm]
    exact List.map_congr_left fun c hc => by rw [if_pos (h c hc)]; rfl
  rw [hm]

/-- Helper for C6: validation preserves length. -/
theorem validate_length (x : String) :
    (Stata.validateVariableName x).data.length = x.data.length := by
  rw [validate_eq]
  exact List.length_map _ _

/-- Helper for C6: the head survives `take (n + 1)`. -/
theorem headD_take {α : Type} (l : List α) (n : Nat) (a : α) :
    (l.take (n + 1)).headD a = l.headD a := by
  cases l <;> rfl

/-- Helper for C6: every successful `fixName` output has only valid
characters, fits in 32 characters, is nonempty, does not start with a
digit, is not itself a reserved word, and starts with an underscore
whenever the validated input was a reserved word. -/
theorem fixName_props (x y : String) (h : Stata.fixName x = some y) :
    (∀ c ∈ y.data, Stata.okChar c = true)
    ∧ y.data.length ≤ 32
    ∧ y.data ≠ []
    ∧ ¬('0' ≤ Stata.strHead y ∧ Stata.strHead y ≤ '9')
    ∧ y ∉ Stata.reservedWords
    ∧ (Stata.validateVariableName x ∈ Stata.reservedWords →
        Stata.strHead y = '_')
    ∧ ('0' ≤ Stata.strHead (Stata.validateVariableName x) ∧
        Stata.strHead (Stata.validateVariableName x) ≤ '9' →
        Stata.strHead y = '_') := by
  unfold Stata.fixName at h
  dsimp only at h
  set v := Stata.validateVariableName x with hv
  have hvok : ∀ c ∈ v.data, Stata.okChar c = true := validate_mem_ok x
  by_cases hres : v ∈ Stata.reservedWords
  · rw [if_pos hres] at h
    have hdat : ("_" ++ v).data = '_' :: v.data := by
      rw [String.data_append]; rfl
    rw [if_neg (by rw [hdat]; simp)] at h
    have hhead : Stata.strHead ("_" ++ v) = '_' := by
      unfold Stata.strHead; rw [hdat]; rfl
    rw [if_neg (by rw [hhead]; decide)] at h
    have hlen9 : v.data.length ≤ 9 := reserved_len v hres
    have htk : ("_" ++ v).data.take 32 = '_' :: v.data := by
      rw [hdat]
      exact List.take_of_length_le (by simp only [List.length_cons]; omega)
    have hy : y = "_" ++ v := by
      have := Option.some.inj h
      rw [← this]
      unfold Stata.strTake
      rw [htk, ← hdat]
    subst hy
    refine ⟨?_, ?_, ?_, ?_, ?_, fun _ => hhead, fun _ => hhead⟩
    · intro c hc
      rw [hdat] at hc
      rcases List.mem_cons.mp hc with rfl | hc
      · decide
      · exact hvok c hc
    · rw [hdat]; simp only [List.length_cons]; omega
    · rw [hdat]; simp
    · rw [hhead]; decide
    · exact reserved_underscore v hres
  · rw [if_neg hres] at h
    by_cases hemp : v.data.isEmpty
    · rw [if_pos hemp] at h; cases h
    · rw [if_neg hemp] at h
      have hvne : v.data ≠ [] := by
        intro hh; rw [hh] at hemp; exact hemp rfl
      by_cases hdig : '0' ≤ Stata.strHead v ∧ Stata.strHead v ≤ '9'
      · rw [if_pos hdig] at h
        obtain ⟨c, t, hct⟩ : ∃ c t, v.data = c :: t := by
          cases hvt : v.data with
          | nil => exact absurd hvt hvne
          | cons a b => exact ⟨a, b, rfl⟩
        have hdat : ("_" ++ v).data = '_' :: c :: t := by
          rw [String.data_append, hct]; rfl
        have hy : y.data = '_' :: c :: t.take 30 := by
          have := Option.some.inj h
          rw [← this]
          unfold Stata.strTake
          rw [hdat]
          rfl
        have hcd : '0' ≤ c ∧ c ≤ '9' := by
          unfold Stata.strHead at hdig
          rwa [hct] at hdig
        have hhy : Stata.strHead y = '_' := by
          unfold Stata.strHead; rw [hy]; rfl
        refine ⟨?_, ?_, ?_, ?_, ?_, fun hr => absurd hr hres, fun _ => hhy⟩
        · intro d hd
          rw [hy] at hd
          rcases List.mem_cons.mp hd with h1 | hd
          · rw [h1]; decide
          · rcases List.mem_cons.mp hd with h1 | h1
            · rw [h1]; exact hvok c (hct ▸ List.mem_cons_self c t)
            · exact hvok d (hct ▸ List.mem_cons_of_mem c (List.take_subset 30 t h1))
        · rw [hy]
          simp only [List.length_cons, List.length_take]
          omega
        · rw [hy]; simp
        · rw [hhy]; decide
        · intro hmem
          have := reserved_shape y hmem (by rw [hy]; rfl)
          apply this
          rw [hy]
          exact hcd
      · rw [if_neg hdig] at h
        have hy : y.data = v.data.take 32 := by
          have := Option.some.inj h
          rw [← this]
          rfl
        have hhy : Stata.strHead y = Stata.strHead v := by
          unfold Stata.strHead
          rw [hy, show (32 : Nat) = 31 + 1 from rfl, headD_take]
        refine ⟨?_, ?_, ?_, ?_, ?_, fun hr => absurd hr hres,
          fun hd' => absurd hd' hdig⟩
        · intro d hd
          rw [hy] at hd
          exact hvok d (List.take_subset 32 v.data hd)
        · rw [hy]
          have := List.length_take_le 32 v.data
          omega
        · rw [hy]
          cases hvt : v.data with
          | nil => exact absurd hvt hvne
          | cons a b => simp
        · rw [hhy]; exact hdig
        · by_cases hle : v.data.length ≤ 32
          · have hyv : y = v :=
              congrArg String.mk (hy.trans (List.take_of_length_le hle))
            rw [hyv]
            exact hres
          · intro hmem
            have h9 := reserved_len y hmem
            have h32 : y.data.length = 32 := by
              rw [hy, List.length_take]
              omega
            omega

/-- Helper for C6: `fixName` is idempotent on its successful outputs. -/
theorem fixName_idem (x y : String) (h : Stata.fixName x = some y) :
    Stata.fixName y = some y := by
  obtain ⟨hok, hlen, hne, hdig, hres, -, -⟩ := fixName_props x y h
  unfold Stata.fixName
  dsimp only
  rw [validate_of_all_ok y hok, if_neg hres,
    if_neg (by simpa using hne), if_neg hdig]
  unfold Stata.strTake
  rw [List.take_of_length_le hlen]

/-- Helper for C6: a name returned by the de-duplication loop does not
occur in the current column list. -/
theorem dedup_count (columns : List String) :
    ∀ (fuel : Nat) (name : String) (dupId : Nat) (name2 : String)
      (dupId2 : Nat),
      Stata.dedupLoop columns fuel name dupId = some (name2, dupId2) →
      columns.count name2 = 0 := by
  intro fuel
  induction fuel with
  | zero =>
    intro name dupId name2 dupId2 h
    rw [Stata.dedupLoop] at h
    by_cases hc : columns.count name = 0
    · rw [if_pos hc] at h
      cases h
      exact hc
    · rw [if_neg hc] at h
      cases h
  | succ f ih =>
    intro name dupId name2 dupId2 h
    rw [Stata.dedupLoop] at h
    by_cases hc : columns.count name = 0
    · rw [if_pos hc] at h
      cases h
      exact hc
    · rw [if_neg hc] at h
      exact ih _ _ _ _ h

/-- Helper for C6: the position loop of `_check_column_names` preserves
distinctness of the column list. -/
theorem checkLoop_nodup (fuel : Nat) :
    ∀ (k : Nat) (columns : List String) (j dupId : Nat)
      (out : List String),
      columns.length - j ≤ k →
      columns.Nodup →
      Stata.checkLoop fuel columns j dupId = some out →
      out.Nodup := by
  intro k
  induction k with
  | zero =>
    intro columns j dupId out hk hn h
    rw [Stata.checkLoop] at h
    rw [dif_neg (show ¬j < columns.length from by omega)] at h
    cases h
    exact hn
  | succ k ih =>
    intro columns j dupId out hk hn h
    rw [Stata.checkLoop] at h
    by_cases hj : j < columns.length
    · rw [dif_pos hj] at h
      dsimp only at h
      cases hfix : Stata.fixName (columns.get ⟨j, hj⟩) with
      | none =>
        rw [hfix] at h
        cases h
      | some name =>
        rw [hfix] at h
        dsimp only at h
        by_cases heq : name = columns.get ⟨j, hj⟩
        · rw [if_pos heq] at h
          exact ih columns (j + 1) dupId out (by omega) hn h
        · rw [if_neg heq] at h
          cases hd : Stata.dedupLoop columns fuel name dupId with
          | none =>
            rw [hd] at h
            cases h
          | some p =>
            obtain ⟨name2, dupId2⟩ := p
            rw [hd] at h
            dsimp only at h
            have hcount := dedup_count columns fuel name dupId name2 dupId2 hd
            have hnotmem : name2 ∉ columns :=
              List.count_eq_zero.mp hcount
            have hn2 : (columns.set j name2).Nodup := hn.set hnotmem
            exact ih (columns.set j name2) (j + 1) dupId2 out
              (by rw [List.length_set]; omega) hn2 h
    · rw [dif_neg hj] at h
      cases h
      exact hn

/-- C6 counterexample: `_check_column_names` does not de-duplicate names
it leaves unchanged, so the duplicate input `["a", "a"]` is emitted
verbatim and the output is not unique; moreover the reserved word
`"str#"` is rewritten by character validation before the reserved-word
check, so its result `"str_"` receives no `'_'` prefix. -/
theorem column_name_counterexample :
    Stata.checkColumnNames 100 ["a", "a"] = some ["a", "a"]
    ∧ ¬(["a", "a"] : List String).Nodup
    ∧ "str#" ∈ Stata.reservedWords
    ∧ Stata.fixName "str#" = some "str_"
    ∧ Stata.strHead "str_" ≠ '_' := by
  refine ⟨?_, by decide, by decide, by rfl, by decide⟩
  unfold Stata.checkColumnNames
  rw [Stata.checkLoop]; norm_num
  rw [show Stata.fixName "a" = some "a" from rfl]; norm_num
  rw [Stata.checkLoop]; norm_num
  rw [show Stata.fixName "a" = some "a" from rfl]; norm_num
  rw [Stata.checkLoop]; norm_num

/-- C6 (amended): the per-name rewriting pass of `_check_column_names`
is idempotent on every name it successfully rewrites; every rewritten
name uses only permitted characters, has length at most 32, does not
start with a digit, and starts with `'_'` whenever the
character-validated name is a reserved word or starts with a digit; and
the full pass keeps a list of already-distinct names distinct. -/
theorem column_name_validation :
    (∀ x y : String, Stata.fixName x = some y → Stata.fixName y = some y)
    ∧ (∀ x y : String, Stata.fixName x = some y →
        (∀ c ∈ y.data, Stata.okChar c = true)
        ∧ y.data.length ≤ 32
        ∧ ¬('0' ≤ Stata.strHead y ∧ Stata.strHead y ≤ '9')
        ∧ (Stata.validateVariableName x ∈ Stata.reservedWords →
            Stata.strHead y = '_')
        ∧ ('0' ≤ Stata.strHead (Stata.validateVariableName x) ∧
            Stata.strHead (Stata.validateVariableName x) ≤ '9' →
            Stata.strHead y = '_'))
    ∧ (∀ (fuel : Nat) (cols out : List String),
        Stata.checkColumnNames fuel cols = some out →
        cols.Nodup → out.Nodup) := by
  refine ⟨fixName_idem, ?_, ?_⟩
  · intro x y h
    obtain ⟨h1, h2, -, h4, -, h6, h7⟩ := fixName_props x y h
    exact ⟨h1, h2, h4, h6, h7⟩
  · intro fuel cols out h hn
    exact checkLoop_nodup fuel cols.length cols 0 0 out (by omega) hn h

/-- Witness for C6 at concrete inputs: the reserved word `"int"` is
rewritten once to `"_int"`, which is a fixed point; and a distinct pair
of unchanged names stays distinct. -/
theorem column_name_validation_witness :
    Stata.fixName "_int" = some "_int"
    ∧ Stata.strHead "_int" = '_'
    ∧ (["a", "b"] : List String).Nodup := by
  refine ⟨?_, ?_, ?_⟩
  · exact column_name_validation.1 "int" "_int" (by rfl)
  · exact (column_name_validation.2.1 "int" "_int" (by rfl)).2.2.2.1
      (by decide)
  · refine column_name_validation.2.2 100 ["a", "b"] ["a", "b"] ?_
      (by decide)
    unfold Stata.checkColumnNames
    rw [Stata.checkLoop]; norm_num
    rw [show Stata.fixName "a" = some "a" from rfl]; norm_num
    rw [Stata.checkLoop]; norm_num
    rw [show Stata.fixName "b" = some "b" from rfl]; norm_num
    rw [Stata.checkLoop]; norm_num

/-- Helper for C7: the extended fold of a column of finite values is the
rational maximum. -/
theorem listMax_fin (qs : List ℚ) :
    ∀ a : ℚ,
      List.foldl (fun x y => if Stata.fleB x y then y else x)
          (Stata.FVal.fin a) (qs.map Stata.FVal.fin)
        = Stata.FVal.fin (qs.foldl max a) := by
  induction qs with
  | nil => intro a; rfl
  | cons b bs ih =>
    intro a
    simp only [List.map_cons, List.foldl_cons]
    rw [show (if Stata.fleB (Stata.FVal.fin a) (Stata.FVal.fin b)
        then Stata.FVal.fin b else Stata.FVal.fin a)
      = Stata.FVal.fin (max a b) from by
        by_cases hab : a ≤ b
        · rw [if_pos (by simpa [Stata.fleB] using hab), max_eq_right hab]
        · rw [if_neg (by simpa [Stata.fleB] using hab),
            max_eq_left (le_of_not_le hab)]]
    exact ih (max a b)

/-- Helper for C7: the extended fold of a column of finite values is the
rational minimum. -/
theorem listMin_fin (qs : List ℚ) :
    ∀ a : ℚ,
      List.foldl (fun x y => if Stata.fleB y x then y else x)
          (Stata.FVal.fin a) (qs.map Stata.FVal.fin)
        = Stata.FVal.fin (qs.foldl min a) := by
  induction qs with
  | nil => intro a; rfl
  | cons b bs ih =>
    intro a
    simp only [List.map_cons, List.foldl_cons]
    rw [show (if Stata.fleB (Stata.FVal.fin b) (Stata.FVal.fin a)
        then Stata.FVal.fin b else Stata.FVal.fin a)
      = Stata.FVal.fin (min a b) from by
        by_cases hba : b ≤ a
        · rw [if_pos (by simpa [Stata.fleB] using hba), min_eq_right hba]
        · rw [if_neg (by simpa [Stata.fleB] using hba),
            min_eq_left (le_of_not_le hba)]]
    exact ih (min a b)

/-- Helper for C7: `listMax` on a nonempty finite column. -/
theorem listMax_cons (q : ℚ) (qs : List ℚ) :
    Stata.listMax ((q :: qs).map Stata.FVal.fin)
      = Stata.FVal.fin (qs.foldl max q) := by
  unfold Stata.listMax
  simp only [List.map_cons, List.foldl_cons]
  rw [show (if Stata.fleB Stata.FVal.minf (Stata.FVal.fin q)
      then Stata.FVal.fin q else Stata.FVal.minf) = Stata.FVal.fin q from rfl]
  exact listMax_fin qs q

/-- Helper for C7: `listMin` on a nonempty finite column. -/
theorem listMin_cons (q : ℚ) (qs : List ℚ) :
    Stata.listMin ((q :: qs).map Stata.FVal.fin)
      = Stata.FVal.fin (qs.foldl min q) := by
  unfold Stata.listMin
  simp only [List.map_cons, List.foldl_cons]
  rw [show (if Stata.fleB (Stata.FVal.fin q) Stata.FVal.pinf
      then Stata.FVal.fin q else Stata.FVal.pinf) = Stata.FVal.fin q from rfl]
  exact listMin_fin qs q

/-- Helper for C7: strict comparison of finite entries. -/
theorem fltB_fin (a b : ℚ) :
    Stata.fltB (Stata.FVal.fin a) (Stata.FVal.fin b) = decide (a < b) := by
  unfold Stata.fltB Stata.fleB
  by_cases h : a < b
  · simp [h, not_le.mpr h]
  · simp [h, not_lt.mp h]

/-- Helper for C7: non-strict comparison of finite entries. -/
theorem fleB_fin (a b : ℚ) :
    Stata.fleB (Stata.FVal.fin a) (Stata.FVal.fin b) = decide (a ≤ b) := rfl

/-- C7: `_cast_to_stata_types` upcasts int8 columns to int16 exactly when
the maximum exceeds 100 or the minimum is below -127, upcasts int16
columns to int32 exactly when outside `[-32767, 32740]`, downcasts int64
columns to int32 exactly when all values lie in
`[-2147483647, 2147483620]` and sidecasts them to float64 otherwise, and
raises for a float64 column whose maximum exceeds `float64_max` (the
decoded pattern one below the first float64 missing-value sentinel) or is
infinite; the raise happens before any byte is emitted. -/
theorem numeric_range_policy :
    (∀ (q : ℚ) (qs : List ℚ),
        Stata.castColumn .int8 ((q :: qs).map Stata.FVal.fin)
          = .ok (if 100 < qs.foldl max q ∨ qs.foldl min q < -127
              then .int16 else .int8))
    ∧ (∀ (q : ℚ) (qs : List ℚ),
        Stata.castColumn .int16 ((q :: qs).map Stata.FVal.fin)
          = .ok (if 32740 < qs.foldl max q ∨ qs.foldl min q < -32767
              then .int32 else .int16))
    ∧ (∀ (q : ℚ) (qs : List ℚ),
        Stata.castColumn .int64 ((q :: qs).map Stata.FVal.fin)
          = .ok (if qs.foldl max q ≤ 2147483620
                ∧ -2147483647 ≤ qs.foldl min q
              then .int32 else .float64))
    ∧ (∀ (q : ℚ) (qs : List ℚ),
        Stata.castColumn .float64 ((q :: qs).map Stata.FVal.fin)
          = if Stata.f64max < qs.foldl max q
            then .error
              "has a maximum value outside the range supported by Stata"
            else .ok .float64)
    ∧ (∀ vals : List Stata.FVal,
        Stata.listMax vals = .pinf ∨ Stata.listMax vals = .minf →
        Stata.castColumn .float64 vals
          = .error
            "has a maximum value of infinity which is outside the range supported by Stata")
    ∧ (Stata.f64max < Stata.valF64 (Stata.f64SentBits 0)
        ∧ Stata.f64SentBits 0 = 0x7fdfffffffffffff + 1)
    ∧ (∀ (cols : List (Stata.NumDtype × List Stata.FVal))
        (emit : List Stata.NumDtype → List Nat) (e : String),
        Stata.castTable cols = .error e →
        Stata.writePipeline cols emit = .error e) := by
  refine ⟨?_, ?_, ?_, ?_, ?_, ⟨?_, ?_⟩, ?_⟩
  · intro q qs
    unfold Stata.castColumn
    dsimp only
    rw [listMax_cons, listMin_cons, fltB_fin, fltB_fin]
    by_cases h1 : 100 < qs.foldl max q <;>
      by_cases h2 : qs.foldl min q < -127 <;> simp [h1, h2]
  · intro q qs
    unfold Stata.castColumn
    dsimp only
    rw [listMax_cons, listMin_cons, fltB_fin, fltB_fin]
    by_cases h1 : 32740 < qs.foldl max q <;>
      by_cases h2 : qs.foldl min q < -32767 <;> simp [h1, h2]
  · intro q qs
    unfold Stata.castColumn
    dsimp only
    rw [listMax_cons, listMin_cons, fleB_fin, fleB_fin]
    by_cases h1 : qs.foldl max q ≤ 2147483620 <;>
      by_cases h2 : -2147483647 ≤ qs.foldl min q <;> simp [h1, h2]
  · intro q qs
    unfold Stata.castColumn
    dsimp only
    rw [listMax_cons, if_neg (by simp), fltB_fin]
    by_cases h : Stata.f64max < qs.foldl max q <;> simp [h]
  · intro vals h
    unfold Stata.castColumn
    dsimp only
    rw [if_pos h]
  · exact Stata.sentPattern_gt_validMax .f64 0 (by norm_num)
  · norm_num [Stata.f64SentBits]
  · intro cols emit e h
    unfold Stata.writePipeline
    rw [h]

/-- Witness for C7 at a concrete infinite column: a float64 column whose
maximum is `np.inf` raises, and the whole-frame pass then produces no
byte stream. -/
theorem numeric_range_policy_witness :
    Stata.castColumn .float64 [.pinf]
        = .error
          "has a maximum value of infinity which is outside the range supported by Stata"
    ∧ Stata.writePipeline [(.float64, [.pinf])] (fun _ => [])
        = .error
          "has a maximum value of infinity which is outside the range supported by Stata" := by
  constructor
  · exact numeric_range_policy.2.2.2.2.1 [.pinf] (Or.inl rfl)
  · exact numeric_range_policy.2.2.2.2.2.2 [(.float64, [.pinf])]
      (fun _ => []) _ rfl
